import Mathlib

/-!
Verification of the batch-orchestration core of YoutubeTranslatorPro.

This file gives a shallow embedding of the two core source files,
src/batch.py (the batch orchestrator: TaskProgress, BatchProcessor) and
src/cache.py (the cache layer: CacheManager), and proves or refutes the
frozen claims about them.

Modelling conventions:
* Python floats are modelled as exact rationals (the progress arithmetic
  only uses decimal constants).
* Collaborator calls (download_audio, convert_to_wav, transcribe,
  translate, the export writers, the diskcache backend) are external; each
  is modelled by its outcome: an Except value (error = the call raised an
  exception whose str() is the carried message) plus, for download and
  convert, the list of progress fractions the collaborator reported
  through the callback before returning or raising.
* Cooperative cancellation: threading.Event is modelled as a Bool-valued
  schedule over the observation sites of _process_url, numbered in program
  order; once set it stays set (a monotonicity hypothesis in theorems).
* Wall-clock timestamps (start_time, end_time, metadata bookkeeping
  values) and logging are not modelled; cache expiry uses an explicit
  rational time passed to each cache operation.
-/

namespace YTPro

/-- Status of a single task in a batch (class TaskStatus, src/batch.py). -/
inductive TaskStatus where
  | pending
  | downloading
  | converting
  | transcribing
  | translating
  | exporting
  | completed
  | failed
  | cancelled
  | skipped
  deriving DecidableEq, Repr

/-- Status of the entire batch operation (class BatchStatus, src/batch.py). -/
inductive BatchStatus where
  | idle
  | running
  | paused
  | completed
  | cancelled
  | failed
  deriving DecidableEq, Repr

/-- The analysis result dictionary produced by the transcribe collaborator:
a dict with a text and a segment list; the translating stage adds the
translated_text entry (result is mutated at src/batch.py line 315). -/
structure TranscriptResult where
  text : String
  segments : List (ℚ × ℚ × String)
  translated_text : Option String := none
  deriving DecidableEq, Repr

/-- Progress information for a single task (dataclass TaskProgress,
src/batch.py lines 43-106).  Wall-clock fields are omitted. -/
structure TaskProgress where
  url : String
  status : TaskStatus := .pending
  progress : ℚ := 0
  download_progress : ℚ := 0
  conversion_progress : ℚ := 0
  transcription_progress : ℚ := 0
  translation_progress : ℚ := 0
  export_progress : ℚ := 0
  result : Option TranscriptResult := none
  error : Option String := none
  temp_files : List String := []
  deriving DecidableEq, Repr

/-- TaskProgress.update_progress (src/batch.py lines 60-76): recompute the
overall progress from the current stage and its stage fraction; FAILED,
CANCELLED and the remaining statuses keep the progress as is. -/
def TaskProgress.update_progress (t : TaskProgress) : TaskProgress :=
  match t.status with
  | .downloading => { t with progress := t.download_progress * (2/10) }
  | .converting => { t with progress := 2/10 + t.conversion_progress * (1/10) }
  | .transcribing => { t with progress := 3/10 + t.transcription_progress * (4/10) }
  | .translating => { t with progress := 7/10 + t.translation_progress * (2/10) }
  | .exporting => { t with progress := 9/10 + t.export_progress * (1/10) }
  | .completed => { t with progress := 1 }
  | _ => t

/-- TaskProgress.cleanup (src/batch.py lines 102-106): when temp files are
present, hand them to cleanup_temp_files and empty the list.  The external
cleanup_temp_files (src/audio_utils.py lines 242-255) wraps each removal in
its own try/except and therefore never raises; the model records the list
of paths passed to it. -/
def TaskProgress.cleanup (t : TaskProgress) : TaskProgress × List String :=
  if t.temp_files ≠ [] then ({ t with temp_files := [] }, t.temp_files) else (t, [])

/-- The fresh task created for each valid url by process_batch
(TaskProgress(url=url), src/batch.py line 485). -/
def TaskProgress.init (url : String) : TaskProgress := { url := url }

/-- The fixed stage weight table of the overall-progress computation:
download 20 percent, conversion 10, transcription 40, translation 20,
export 10 (src/batch.py lines 60-76). -/
def stageWeights : List ℚ := [2/10, 1/10, 4/10, 2/10, 1/10]

/-- The start of the band of stage i: the sum of the weights of the stages
that precede it. -/
def stageOffset (i : Nat) : ℚ := (stageWeights.take i).sum

/-- Python truthiness of an optional string argument (None and the empty
string are falsy). -/
def optTruthy : Option String → Bool
  | none => false
  | some s => !(s == "")

/-- Python str() of an optional-string parameter value: None renders as
the four-character string None. -/
def pyStr : Option String → String
  | none => "None"
  | some s => s

/-- Python str.join: sep.join(parts). -/
def pyJoin (sep : String) : List String → String
  | [] => ""
  | [x] => x
  | x :: y :: xs => x ++ sep ++ pyJoin sep (y :: xs)

/-- Lexicographic comparison of character lists by code point (the string
ordering Python uses when sorting dict items). -/
def charListLe : List Char → List Char → Bool
  | [], _ => true
  | _ :: _, [] => false
  | a :: as, b :: bs =>
    if a.val < b.val then true
    else if b.val < a.val then false
    else charListLe as bs

/-- String comparison by code points. -/
def strLe (a b : String) : Bool := charListLe a.data b.data

/-- sorted(params.items()) (src/cache.py line 136): dict items sorted in
ascending key order (keys are unique within a dict, so comparing keys
decides the order; Python compares strings lexicographically by code
point). -/
def sortParams (ps : List (String × Option String)) : List (String × Option String) :=
  List.insertionSort (fun a b => strLe a.1 b.1 = true) ps

/-- The joined key string of CacheManager._get_cache_key (src/cache.py
lines 120-141) before hashing: the primary key followed by the sorted
k=v parameter renderings, joined with the vertical bar. -/
def cacheKeyString (data_key : String) (params : List (String × Option String)) : String :=
  pyJoin "|" (data_key :: (sortParams params).map (fun kv => kv.1 ++ "=" ++ pyStr kv.2))

/-- hashlib.md5 hexdigest of the key string (src/cache.py line 141).  The
hash is an external library call; it is modelled as an injective encoding
of its input (a collision-free abstraction), so the composite key is
represented by the serialized key string itself. -/
def md5hexdigest (s : String) : String := s

/-- CacheManager._get_cache_key: the composite cache key for a primary key
and a parameter dict. -/
def get_cache_key (data_key : String) (params : List (String × Option String)) : String :=
  md5hexdigest (cacheKeyString data_key params)

/-- The cache namespaces (enum CacheType, src/cache.py lines 20-25). -/
inductive CacheType where
  | transcription
  | translation
  | download
  | metadata
  deriving DecidableEq, Repr

/-- Per-namespace counters (class CacheStats, src/cache.py lines 28-58);
the wall-clock last_access and last_store fields are omitted. -/
structure CacheStats where
  hits : Nat := 0
  misses : Nat := 0
  stores : Nat := 0
  deletes : Nat := 0
  errors : Nat := 0
  deriving DecidableEq, Repr

/-- One stored cache entry: the payload plus its absolute expiry time
(none = no expiry). -/
structure CacheEntry (V : Type) where
  value : V
  expireAt : Option ℚ
  deriving DecidableEq, Repr

/-- The diskcache FanoutCache backend of one namespace, modelled as an
association list from composite key to entry.  diskcache is an external
collaborator: set(key, value, expire) stores an absolute expiry of
now + expire, get(key) returns the value unless the key is absent or its
expiry lies strictly in the past. -/
abbrev Backend (V : Type) := List (String × CacheEntry V)

/-- Lookup in the diskcache backend at the given time: absent or expired
keys read as None. -/
def backendGet {V : Type} (b : Backend V) (k : String) (now : ℚ) : Option V :=
  match b.find? (fun e => e.1 == k) with
  | none => none
  | some e =>
    match e.2.expireAt with
    | none => some e.2.value
    | some texp => if texp < now then none else some e.2.value

/-- Write to the diskcache backend: replaces any entry under the same key
and installs the new absolute expiry (its TTL clock starts afresh). -/
def backendSet {V : Type} (b : Backend V) (k : String) (v : V) (expireAt : Option ℚ) :
    Backend V :=
  (k, ⟨v, expireAt⟩) :: b.filter (fun e => !(e.1 == k))

/-- The state of CacheManager (src/cache.py lines 61-98): one backend and
one statistics record per namespace, plus the default TTL.  The metadata
bookkeeping values written on hits and stores are wall-clock data and are
modelled only through the failure behaviour of the writes. -/
structure CacheManagerState (V : Type) where
  default_ttl : ℚ
  caches : CacheType → Backend V
  stats : CacheType → CacheStats

/-- Replace the backend of one namespace. -/
def updCache {V : Type} (st : CacheManagerState V) (ct : CacheType) (b : Backend V) :
    CacheManagerState V :=
  { st with caches := fun x => if x = ct then b else st.caches x }

/-- Apply an update to the statistics record of one namespace. -/
def updStats {V : Type} (st : CacheManagerState V) (ct : CacheType)
    (f : CacheStats → CacheStats) : CacheManagerState V :=
  { st with stats := fun x => if x = ct then f (st.stats x) else st.stats x }

/-- Result of CacheManager.get: the returned value and the new state. -/
structure CacheGetOut (V : Type) where
  value : Option V
  state : CacheManagerState V

/-- CacheManager.get (src/cache.py lines 143-181).  backendExc models the
cache.get call raising (some message = the exception text); metaExc models
the metadata bookkeeping (reads and writes on the METADATA backend, done
on a hit for non-metadata namespaces) raising.  Every exception is caught
by the except clause of the method: the stats error counter is bumped and
None is returned; the method itself never raises. -/
def CacheManager.get {V : Type} (st : CacheManagerState V) (ct : CacheType) (key : String)
    (params : List (String × Option String)) (now : ℚ)
    (backendExc metaExc : Option String) : CacheGetOut V :=
  let cache_key := get_cache_key key params
  match backendExc with
  | some _ => ⟨none, updStats st ct (fun s => { s with errors := s.errors + 1 })⟩
  | none =>
    match backendGet (st.caches ct) cache_key now with
    | some v =>
      let st1 := updStats st ct (fun s => { s with hits := s.hits + 1 })
      match (if ct = .metadata then none else metaExc) with
      | some _ => ⟨none, updStats st1 ct (fun s => { s with errors := s.errors + 1 })⟩
      | none => ⟨some v, st1⟩
    | none => ⟨none, updStats st ct (fun s => { s with misses := s.misses + 1 })⟩

/-- Result of CacheManager.store: the returned success flag and the new
state. -/
structure CacheStoreOut (V : Type) where
  ok : Bool
  state : CacheManagerState V

/-- CacheManager.store (src/cache.py lines 183-221).  backendExc models
the cache.set call raising, setOk its boolean return value, metaExc the
metadata bookkeeping write raising after a successful set.  All exceptions
are caught: the error counter is bumped and False is returned; the method
never raises.  Note that when the metadata write fails the entry has
nevertheless been written and the store counter bumped, yet False is
returned, exactly as in the source. -/
def CacheManager.store {V : Type} (st : CacheManagerState V) (ct : CacheType) (key : String)
    (data : V) (params : List (String × Option String)) (ttl : Option ℚ) (now : ℚ)
    (backendExc metaExc : Option String) (setOk : Bool) : CacheStoreOut V :=
  let cache_key := get_cache_key key params
  let actual_ttl := ttl.getD st.default_ttl
  match backendExc with
  | some _ => ⟨false, updStats st ct (fun s => { s with errors := s.errors + 1 })⟩
  | none =>
    if setOk then
      let st1 := updCache st ct
        (backendSet (st.caches ct) cache_key data (some (now + actual_ttl)))
      let st2 := updStats st1 ct (fun s => { s with stores := s.stores + 1 })
      match (if ct = .metadata then none else metaExc) with
      | some _ => ⟨false, updStats st2 ct (fun s => { s with errors := s.errors + 1 })⟩
      | none => ⟨true, st2⟩
    else ⟨false, st⟩

/-- The scheme and netloc of a parsed URL (the only fields validate_url
consults). -/
structure UrlParts where
  scheme : String
  netloc : String
  deriving DecidableEq, Repr

/-- Characters allowed in a URL scheme after the leading letter. -/
def isSchemeChar (c : Char) : Bool :=
  c.isAlpha || c.isDigit || c == '+' || c == '-' || c == '.'

/-- Whether a character list starts with a letter. -/
def startsAlpha : List Char → Bool
  | [] => false
  | c :: _ => c.isAlpha

/-- Models Python urllib.parse.urlparse for the scheme and netloc fields:
the scheme is the lowercased prefix before the first colon when that
prefix is letter-led and made only of scheme characters, and the netloc
follows a double slash, running up to the next slash, question mark or
hash.  urlparse is an external collaborator; it does not raise on the
ordinary URL strings considered here. -/
def urlparse (url : String) : UrlParts :=
  let cs := url.data
  let pre := cs.takeWhile (fun ch => ch != ':')
  let (schemeChars, rest) :=
    if pre.length < cs.length && startsAlpha pre && pre.all isSchemeChar then
      (pre.map Char.toLower, cs.drop (pre.length + 1))
    else ([], cs)
  let netlocChars :=
    match rest with
    | '/' :: '/' :: r => r.takeWhile (fun ch => ch != '/' && ch != '?' && ch != '#')
    | _ => []
  { scheme := ⟨schemeChars⟩, netloc := ⟨netlocChars⟩ }

/-- Python substring membership (pat in s) on character lists. -/
def isSubstrChars (pat : List Char) : List Char → Bool
  | [] => pat.isEmpty
  | c :: rest => pat.isPrefixOf (c :: rest) || isSubstrChars pat rest

/-- BatchProcessor.validate_url (src/batch.py lines 142-152): the scheme
must be http or https and the netloc must contain youtube.com or youtu.be
as a substring. -/
def validate_url (url : String) : Bool :=
  if url == "" then false
  else
    let parsed := urlparse url
    (parsed.scheme == "http" || parsed.scheme == "https")
      && (isSubstrChars "youtube.com".data parsed.netloc.data
          || isSubstrChars "youtu.be".data parsed.netloc.data)

/-- One step of building the task dictionary: an invalid url is dropped, a
valid one becomes a key unless it is already present (a duplicate valid
url only re-assigns the same dict entry). -/
def taskKeyStep (acc : List String) (u : String) : List String :=
  if validate_url u then (if u ∈ acc then acc else acc ++ [u]) else acc

/-- The keys of the task dictionary built by process_batch (src/batch.py
lines 482-485): one dict entry per valid url, keyed by the url string in
first-appearance order. -/
def taskKeys (urls : List String) : List String :=
  urls.foldl taskKeyStep []

/-- The immediate return value of BatchProcessor.process_batch
(src/batch.py lines 454-556). -/
structure BatchStartResult where
  status : String
  message : Option String := none
  tasks : List String := []
  total : Nat := 0
  deriving DecidableEq, Repr

/-- BatchProcessor.process_batch, up to its immediate return: reject an
empty url list, build the task dictionary from the valid urls, reject an
empty task set, otherwise report started with the task keys and their
count (lines 469-488 and 552-556). -/
def process_batch (urls : List String) : BatchStartResult :=
  if urls = [] then { status := "error", message := some "No URLs provided" }
  else
    let keys := taskKeys urls
    if keys = [] then { status := "error", message := some "No valid YouTube URLs provided" }
    else { status := "started", tasks := keys, total := keys.length }

/-- The per-task snapshot carried by progress and completion payloads
(TaskProgress.to_dict, src/batch.py lines 85-100; elapsed wall-clock time
omitted). -/
structure TaskSnapshot where
  url : String
  status : TaskStatus
  progress : ℚ
  error : Option String
  deriving DecidableEq, Repr

/-- Build the to_dict snapshot of a task. -/
def TaskProgress.snapshot (t : TaskProgress) : TaskSnapshot :=
  ⟨t.url, t.status, t.progress, t.error⟩

/-- The aggregate handed to the completion callback (src/batch.py lines
530-537). -/
structure CompletionPayload where
  status : BatchStatus
  tasks : List TaskSnapshot
  completed : Nat
  failed : Nat
  total : Nat
  deriving DecidableEq, Repr

/-- The final batch status derivation of monitor_progress (src/batch.py
lines 518-524): Cancelled when the cancellation switch is set, else Failed
when any task is Failed, else Completed. -/
def deriveBatchStatus (cancelSet : Bool) (tasks : List TaskProgress) : BatchStatus :=
  if cancelSet then .cancelled
  else if tasks.any (fun t => t.status == .failed) then .failed
  else .completed

/-- The payload of the completion callback: final status, per-task
snapshots, completed and failed counts, and the total. -/
def completionPayload (cancelSet : Bool) (tasks : List TaskProgress) : CompletionPayload :=
  { status := deriveBatchStatus cancelSet tasks
    tasks := tasks.map TaskProgress.snapshot
    completed := (tasks.filter (fun t => t.status == .completed)).length
    failed := (tasks.filter (fun t => t.status == .failed)).length
    total := tasks.length }

/-- The tail of monitor_progress (src/batch.py lines 508-545) after every
submitted future has settled: derive the final batch status and, when a
completion callback is registered, fire it once with the aggregate
payload.  The returned list is the list of callback invocations. -/
def monitor_progress (cancelSet : Bool) (tasks : List TaskProgress) (hasCallback : Bool) :
    BatchStatus × List CompletionPayload :=
  let st := deriveBatchStatus cancelSet tasks
  (st, if hasCallback then [completionPayload cancelSet tasks] else [])

/-- Observable events of one _process_url run, in program order:
task-progress reports (the status and overall progress of the snapshot
handed to the progress callback), observations of the cancellation switch
(site number and observed value), collaborator stage calls, cache
accesses, and temp-file acquisitions. -/
inductive Ev where
  | report (status : TaskStatus) (progress : ℚ)
  | checkCancel (site : Nat) (value : Bool)
  | callCacheGet (key : String)
  | callDownload
  | callConvert
  | callTranscribe
  | callTranslate
  | callExport
  | callCacheStore (key : String)
  | acquireTemp (path : String)
  deriving DecidableEq, Repr

/-- Whether an event is the start of a pipeline stage collaborator call
(download, convert, transcribe, translate, export). -/
def Ev.isStageCall : Ev → Bool
  | .callDownload | .callConvert | .callTranscribe | .callTranslate | .callExport => true
  | _ => false

/-- The report event for the current task snapshot. -/
def reportEv (t : TaskProgress) : Ev := .report t.status t.progress

/-- The outcomes of the external collaborators for one _process_url run.
For download and convert the fraction lists are the progress-callback
invocations the collaborator performs before returning or raising; the
Except value is its final outcome (error = it raised, carrying str(e)).
The cache fields are the failure oracles threaded to the cache layer. -/
structure PipeEnv where
  download : Except String String
  downloadCbs : List ℚ := []
  convert : Except String String
  convertCbs : List ℚ := []
  transcribeOut : Except String TranscriptResult
  translateOut : Except String String
  exportOut : Except String Unit
  cacheGetExc : Option String := none
  cacheGetMetaExc : Option String := none
  cacheStoreExc : Option String := none
  cacheStoreMetaExc : Option String := none
  cacheSetOk : Bool := true

/-- Cache-manager state specialised to the transcription payload. -/
abbrev CMState := CacheManagerState TranscriptResult

/-- download_progress_callback (src/batch.py lines 259-263): each
invocation stores the fraction, recomputes the overall progress and
reports; returns the final task and the report events in order. -/
def runDownloadCbs (t : TaskProgress) : List ℚ → TaskProgress × List Ev
  | [] => (t, [])
  | f :: rest =>
    let t1 := ({ t with download_progress := f }).update_progress
    let (t2, evs) := runDownloadCbs t1 rest
    (t2, reportEv t1 :: evs)

/-- conversion_progress_callback (src/batch.py lines 276-280), analogous
to the download callback. -/
def runConvertCbs (t : TaskProgress) : List ℚ → TaskProgress × List Ev
  | [] => (t, [])
  | f :: rest =>
    let t1 := ({ t with conversion_progress := f }).update_progress
    let (t2, evs) := runConvertCbs t1 rest
    (t2, reportEv t1 :: evs)

/-- The parameter dict used for the cache lookup in _process_url (lines
219-221): always the model, plus the target language only when that is
truthy. -/
def getParams (model : String) (target_lang : Option String) :
    List (String × Option String) :=
  [("model", some model)] ++ (if optTruthy target_lang then [("target_lang", target_lang)] else [])

/-- The parameter dict used for the cache store in _process_url (lines
342-343): the model and the target language unconditionally, a None
target language included. -/
def storeParams (model : String) (target_lang : Option String) :
    List (String × Option String) :=
  [("model", some model), ("target_lang", target_lang)]

/-- An exception escaping the try block of _process_url: the message, the
task state at the raise point, and the events so far. -/
abbrev TryExc := String × TaskProgress × List Ev

/-- Normal completion of the try block: the task after the COMPLETED
transition, the events, and the cache state after the store. -/
abbrev TryOk := TaskProgress × List Ev × Option CMState

/-- The tail of the try block from the cache store onwards (src/batch.py
lines 340-357): store the result when a cache manager is present (the
result dict of a successful transcription is a nonempty dict, hence
truthy), then transition to COMPLETED with progress 1 and report. -/
def finishPart (cm : Option CMState) (env : PipeEnv) (t : TaskProgress) (evs : List Ev)
    (res : TranscriptResult) (url model : String) (target_lang : Option String) (now : ℚ) :
    Except TryExc TryOk :=
  let k := get_cache_key url (storeParams model target_lang)
  let (cm1, evs1) :=
    match cm with
    | some st =>
      let out := CacheManager.store st .transcription url res (storeParams model target_lang)
        none now env.cacheStoreExc env.cacheStoreMetaExc env.cacheSetOk
      (some out.state, evs ++ [Ev.callCacheStore k])
    | none => (none, evs)
  let tfin := { t with status := TaskStatus.completed, progress := 1, result := some res }
  .ok (tfin, evs1 ++ [reportEv tfin], cm1)

/-- The EXPORTING block of the try body (src/batch.py lines 322-338): when
formats and an output directory are requested, enter EXPORTING, observe
the cancellation switch (site 5), run the export collaborator and on
success complete the stage fraction; otherwise fall through to the finish
part. -/
def exportPart (cm : Option CMState) (c : Nat → Bool) (env : PipeEnv) (t : TaskProgress)
    (evs : List Ev) (res : TranscriptResult) (url model : String)
    (target_lang output_dir : Option String) (formats : List String) (now : ℚ) :
    Except TryExc TryOk :=
  if !formats.isEmpty && optTruthy output_dir then
    let t1 := ({ t with status := TaskStatus.exporting, export_progress := 0 }).update_progress
    let evs1 := evs ++ [reportEv t1, Ev.checkCancel 5 (c 5)]
    if c 5 then .error ("Task cancelled", t1, evs1)
    else
      let evs2 := evs1 ++ [Ev.callExport]
      match env.exportOut with
      | .error m => .error (m, t1, evs2)
      | .ok _ =>
        let t2 := ({ t1 with export_progress := 1 }).update_progress
        finishPart cm env t2 (evs2 ++ [reportEv t2]) res url model target_lang now
  else finishPart cm env t evs res url model target_lang now

/-- The TRANSLATING block of the try body (src/batch.py lines 303-320):
when a target language is requested, enter TRANSLATING with fraction 0,
observe the cancellation switch (site 4), run the translate collaborator,
store its output on the result and complete the stage fraction; otherwise
fall through to the export part. -/
def translatePart (cm : Option CMState) (c : Nat → Bool) (env : PipeEnv) (t : TaskProgress)
    (evs : List Ev) (res : TranscriptResult) (url model : String)
    (target_lang output_dir : Option String) (formats : List String) (now : ℚ) :
    Except TryExc TryOk :=
  if optTruthy target_lang then
    let t1 := ({ t with status := TaskStatus.translating, translation_progress := 0
                 }).update_progress
    let evs1 := evs ++ [reportEv t1, Ev.checkCancel 4 (c 4)]
    if c 4 then .error ("Task cancelled", t1, evs1)
    else
      let evs2 := evs1 ++ [Ev.callTranslate]
      match env.translateOut with
      | .error m => .error (m, t1, evs2)
      | .ok tr =>
        let res1 := { res with translated_text := some tr }
        let t2 := ({ t1 with translation_progress := 1 }).update_progress
        exportPart cm c env t2 (evs2 ++ [reportEv t2]) res1 url model target_lang
          output_dir formats now
  else exportPart cm c env t evs res url model target_lang output_dir formats now

/-- The try block of _process_url (src/batch.py lines 253-357):
DOWNLOADING with its callback reports and cancellation observation
(site 1), CONVERTING likewise (site 2), TRANSCRIBING (site 3), then the
translate and export blocks and the finish part.  Each temp file returned
by a collaborator is appended to the task before the next stage. -/
def tryBody (cm : Option CMState) (c : Nat → Bool) (env : PipeEnv) (t0 : TaskProgress)
    (url model : String) (target_lang output_dir : Option String)
    (formats : List String) (now : ℚ) : Except TryExc TryOk :=
  let t1 := { t0 with status := TaskStatus.downloading }
  let e1 := [reportEv t1, Ev.checkCancel 1 (c 1)]
  if c 1 then .error ("Task cancelled", t1, e1)
  else
    let (t2, cbEvs1) := runDownloadCbs t1 env.downloadCbs
    let e2 := e1 ++ [Ev.callDownload] ++ cbEvs1
    match env.download with
    | .error m => .error (m, t2, e2)
    | .ok audio_path =>
      let t3 := { t2 with temp_files := t2.temp_files ++ [audio_path] }
      let t4 := { t3 with status := TaskStatus.converting }
      let e3 := e2 ++ [Ev.acquireTemp audio_path, reportEv t4, Ev.checkCancel 2 (c 2)]
      if c 2 then .error ("Task cancelled", t4, e3)
      else
        let (t5, cbEvs2) := runConvertCbs t4 env.convertCbs
        let e4 := e3 ++ [Ev.callConvert] ++ cbEvs2
        match env.convert with
        | .error m => .error (m, t5, e4)
        | .ok wav_path =>
          let t6 := { t5 with temp_files := t5.temp_files ++ [wav_path] }
          let t7 := ({ t6 with status := TaskStatus.transcribing, transcription_progress := 0 }).update_progress
          let e5 := e4 ++ [Ev.acquireTemp wav_path, reportEv t7, Ev.checkCancel 3 (c 3)]
          if c 3 then .error ("Task cancelled", t7, e5)
          else
            let e6 := e5 ++ [Ev.callTranscribe]
            match env.transcribeOut with
            | .error m => .error (m, t7, e6)
            | .ok res =>
              translatePart cm c env t7 e6 res url model target_lang output_dir formats now

/-- The return dict of _process_url, reduced to its status, cached flag
and error entries. -/
structure PyRet where
  status : String
  cached : Bool := false
  error : Option String := none
  deriving DecidableEq, Repr

/-- The complete outcome of one _process_url run: the final task record,
the returned dict (or, as Except.error, an exception that escaped the
method), the cache state, the event trace, and the temp files passed to
cleanup_temp_files. -/
structure RunOut where
  task : TaskProgress
  ret : Except String PyRet
  cache : Option CMState
  trace : List Ev
  released : List String

/-- The try/except/finally wrapper of _process_url (src/batch.py lines
253-381): on an exception from the try block, observe the cancellation
switch (site 6) to pick CANCELLED over FAILED, set the error text and
report; in all cases run the finally cleanup of the temp files. -/
def runGuarded (cm : Option CMState) (c : Nat → Bool) (env : PipeEnv) (t0 : TaskProgress)
    (evs0 : List Ev) (url model : String) (target_lang output_dir : Option String)
    (formats : List String) (now : ℚ) : RunOut :=
  match tryBody cm c env t0 url model target_lang output_dir formats now with
  | .ok (t, evs, cm1) =>
    let (t2, rel) := t.cleanup
    { task := t2, ret := .ok { status := "completed" }, cache := cm1,
      trace := evs0 ++ evs, released := rel }
  | .error (m, t, evs) =>
    let cancelled := c 6
    let t1 := { t with status := if cancelled then .cancelled else .failed, error := some m }
    let evs1 := evs ++ [Ev.checkCancel 6 cancelled, reportEv t1]
    let (t2, rel) := t1.cleanup
    { task := t2,
      ret := .ok { status := if cancelled then "cancelled" else "failed", error := some m },
      cache := cm, trace := evs0 ++ evs1, released := rel }

/-- BatchProcessor._process_url (src/batch.py lines 190-381).  The run is
determined by the cache state, the cancellation schedule, the collaborator
outcomes and the call arguments.  Before anything else the cancellation
switch is observed (site 0); then, when a cache manager is present, the
composite key over the get parameter dict is looked up, a hit completing
the task directly (still exporting when requested, NOT inside the
try/except: an exception of that export call escapes the method); a miss
or an absent cache manager falls into the guarded pipeline. -/
def process_url (cm : Option CMState) (c : Nat → Bool) (env : PipeEnv) (t0 : TaskProgress)
    (url model : String) (target_lang output_dir : Option String)
    (formats : List String) (now : ℚ) : RunOut :=
  if c 0 then
    let t1 := ({ t0 with status := TaskStatus.cancelled }).update_progress
    { task := t1, ret := .ok { status := "cancelled" }, cache := cm,
      trace := [Ev.checkCancel 0 true, reportEv t1], released := [] }
  else
    match cm with
    | some st =>
      let ps := getParams model target_lang
      let gout := CacheManager.get st .transcription url ps now env.cacheGetExc
        env.cacheGetMetaExc
      let evs0 := [Ev.checkCancel 0 false, Ev.callCacheGet (get_cache_key url ps)]
      match gout.value with
      | some cached_result =>
        let t1 := { t0 with status := TaskStatus.completed, progress := 1, result := some cached_result }
        let evs1 := evs0 ++ [reportEv t1]
        if !formats.isEmpty && optTruthy output_dir then
          match env.exportOut with
          | .error m =>
            { task := t1, ret := .error m, cache := some gout.state,
              trace := evs1 ++ [Ev.callExport], released := [] }
          | .ok _ =>
            { task := t1, ret := .ok { status := "completed", cached := true },
              cache := some gout.state, trace := evs1 ++ [Ev.callExport], released := [] }
        else
          { task := t1, ret := .ok { status := "completed", cached := true },
            cache := some gout.state, trace := evs1, released := [] }
      | none =>
        runGuarded (some gout.state) c env t0 evs0 url model target_lang output_dir
          formats now
    | none =>
      runGuarded none c env t0 [Ev.checkCancel 0 false] url model target_lang output_dir
        formats now

/-- One batch worker run per job (the executor.submit loop of
process_batch, src/batch.py lines 493-502): every job runs _process_url on
its own fresh task with the shared cancellation schedule.  Each run
mutates only its own task entry; the shared cache manager is modelled by
the cache state each job observes at its own cache accesses. -/
def runBatchJobs (c : Nat → Bool) (jobs : List (String × PipeEnv × Option CMState))
    (model : String) (target_lang output_dir : Option String) (formats : List String)
    (now : ℚ) : List RunOut :=
  jobs.map (fun j =>
    process_url j.2.2 c j.2.1 (TaskProgress.init j.1) j.1 model target_lang output_dir
      formats now)

/-- The error text raised by the export stage of a run, when that stage is
performed (used to state the failure-conversion claims). -/
def exportStageError (env : PipeEnv) (output_dir : Option String)
    (formats : List String) : Option String :=
  if !formats.isEmpty && optTruthy output_dir then
    match env.exportOut with
    | .error e => some e
    | .ok _ => none
  else none

/-- The error text of the first collaborator among translate and export
that raises, when those stages are performed. -/
def translateStageError (env : PipeEnv) (target_lang output_dir : Option String)
    (formats : List String) : Option String :=
  if optTruthy target_lang then
    match env.translateOut with
    | .error e => some e
    | .ok _ => exportStageError env output_dir formats
  else exportStageError env output_dir formats

/-- The error text of the first pipeline stage collaborator that raises in
a run with the given outcomes, in stage order (none when every performed
stage succeeds). -/
def firstStageError (env : PipeEnv) (target_lang output_dir : Option String)
    (formats : List String) : Option String :=
  match env.download with
  | .error e => some e
  | .ok _ =>
    match env.convert with
    | .error e => some e
    | .ok _ =>
      match env.transcribeOut with
      | .error e => some e
      | .ok _ => translateStageError env target_lang output_dir formats

/-- The overall-progress values of the reported task snapshots whose
status is neither Failed nor Cancelled, in report order. -/
def activeReportVals (trace : List Ev) : List ℚ :=
  trace.filterMap (fun ev =>
    match ev with
    | .report s p => if s = .failed ∨ s = .cancelled then none else some p
    | _ => none)

/-- The temp-file paths acquired during a run, in acquisition order. -/
def acquiredTemps (trace : List Ev) : List String :=
  trace.filterMap (fun ev =>
    match ev with
    | .acquireTemp p => some p
    | _ => none)

/-- A sample transcription result used in concrete runs. -/
def sampleResult : TranscriptResult :=
  { text := "hello", segments := [(0, 1, "hello")] }

/-- A second, distinct sample result. -/
def sampleResult2 : TranscriptResult :=
  { text := "welt", segments := [(0, 2, "welt")] }

/-- Collaborator outcomes where every call succeeds and no progress
callbacks fire. -/
def envOK : PipeEnv :=
  { download := .ok "/tmp/a.mp3", convert := .ok "/tmp/a.wav",
    transcribeOut := .ok sampleResult, translateOut := .ok "bonjour",
    exportOut := .ok () }

/-- The never-set cancellation schedule. -/
def cNever : Nat → Bool := fun _ => false

/-- A cancellation schedule set from observation site 1 onwards (cancel
requested after the initial checkpoint was passed). -/
def cAfter0 : Nat → Bool := fun i => decide (1 ≤ i)

/-- An empty cache-manager state with default TTL 100. -/
def emptyCM : CMState :=
  { default_ttl := 100, caches := fun _ => [], stats := fun _ => {} }

/-- Membership in the folded task keys: a url is a key exactly when it was
already accumulated or it is a valid member of the remaining list. -/
theorem taskKeys_go_mem (urls : List String) (acc : List String) (u : String) :
    (u ∈ urls.foldl taskKeyStep acc) ↔ (u ∈ acc ∨ (u ∈ urls ∧ validate_url u = true)) := by
  induction urls generalizing acc with
  | nil => simp
  | cons v rest ih =>
    simp only [List.foldl_cons]
    rw [ih]
    unfold taskKeyStep
    by_cases hv : validate_url v
    · by_cases hm : v ∈ acc
      · simp only [hv, if_true, hm]
        constructor
        · rintro (h | h)
          · exact Or.inl h
          · exact Or.inr ⟨List.mem_cons_of_mem _ h.1, h.2⟩
        · rintro (h | ⟨hmem, hval⟩)
          · exact Or.inl h
          · rcases List.mem_cons.mp hmem with rfl | h
            · exact Or.inl hm
            · exact Or.inr ⟨h, hval⟩
      · simp only [hv, if_true, hm, if_false, List.mem_append, List.mem_singleton]
        constructor
        · rintro ((h | rfl) | h)
          · exact Or.inl h
          · exact Or.inr ⟨List.mem_cons_self _ _, hv⟩
          · exact Or.inr ⟨List.mem_cons_of_mem _ h.1, h.2⟩
        · rintro (h | ⟨hmem, hval⟩)
          · exact Or.inl (Or.inl h)
          · rcases List.mem_cons.mp hmem with rfl | h
            · exact Or.inl (Or.inr rfl)
            · exact Or.inr ⟨h, hval⟩
    · simp only [hv, if_false]
      constructor
      · rintro (h | h)
        · exact Or.inl h
        · exact Or.inr ⟨List.mem_cons_of_mem _ h.1, h.2⟩
      · rintro (h | ⟨hmem, hval⟩)
        · exact Or.inl h
        · rcases List.mem_cons.mp hmem with rfl | h
          · exact absurd hval (by simp [hv])
          · exact Or.inr ⟨h, hval⟩

/-- The folded task keys stay duplicate-free. -/
theorem taskKeys_go_nodup (urls : List String) (acc : List String) (h : acc.Nodup) :
    (urls.foldl taskKeyStep acc).Nodup := by
  induction urls generalizing acc with
  | nil => simpa using h
  | cons v rest ih =>
    simp only [List.foldl_cons]
    apply ih
    unfold taskKeyStep
    by_cases hv : validate_url v
    · by_cases hm : v ∈ acc
      · simpa [hv, hm] using h
      · simp [hv, hm, List.nodup_append, h]
    · simpa [hv] using h

/-- C8: the overall progress is computed from the current stage and its
stage fraction through the fixed weight table download 20, conversion 10,
transcription 40, translation 20, export 10 percent, each band starting at
the sum of the preceding weights; and a skipped optional stage contributes
its band instantly: in a run with no translation requested, the EXPORTING
stage is entered at exactly the full preceding offset 9/10. -/
theorem C8_weight_table (t : TaskProgress) :
    ({ t with status := TaskStatus.downloading } : TaskProgress).update_progress.progress
        = stageOffset 0 + t.download_progress * (2/10)
  ∧ ({ t with status := TaskStatus.converting } : TaskProgress).update_progress.progress
        = stageOffset 1 + t.conversion_progress * (1/10)
  ∧ ({ t with status := TaskStatus.transcribing } : TaskProgress).update_progress.progress
        = stageOffset 2 + t.transcription_progress * (4/10)
  ∧ ({ t with status := TaskStatus.translating } : TaskProgress).update_progress.progress
        = stageOffset 3 + t.translation_progress * (2/10)
  ∧ ({ t with status := TaskStatus.exporting } : TaskProgress).update_progress.progress
        = stageOffset 4 + t.export_progress * (1/10)
  ∧ stageWeights = [2/10, 1/10, 4/10, 2/10, 1/10]
  ∧ Ev.report TaskStatus.exporting (stageOffset 4)
      ∈ (process_url none cNever envOK (TaskProgress.init "u") "u" "small" none (some "o")
          ["srt"] 0).trace := by
  refine ⟨?_, ?_, ?_, ?_, ?_, rfl, ?_⟩
  · simp [TaskProgress.update_progress, stageOffset, stageWeights]
  · simp [TaskProgress.update_progress, stageOffset, stageWeights]
  · simp [TaskProgress.update_progress, stageOffset, stageWeights]
    norm_num
  · simp [TaskProgress.update_progress, stageOffset, stageWeights]
    norm_num
  · simp [TaskProgress.update_progress, stageOffset, stageWeights]
    norm_num
  · norm_num [process_url, runGuarded, tryBody, translatePart, exportPart, finishPart,
      runDownloadCbs, runConvertCbs, TaskProgress.update_progress, TaskProgress.init,
      TaskProgress.cleanup, cNever, envOK, reportEv, optTruthy, sampleResult, stageOffset,
      stageWeights, show (("o" : String) = "") ↔ False from by simp]

/-- C4 counterexample: a reachable progress report shows overall progress
exactly 1 while the stage is still Exporting (the update after the export
collaborator returns, src/batch.py lines 335-338, before the COMPLETED
transition), so progress 1 does not imply stage Completed. -/
theorem C4_counterexample :
    Ev.report TaskStatus.exporting 1
      ∈ (process_url none cNever envOK (TaskProgress.init "u") "u" "small" none (some "o")
          ["srt"] 0).trace
  ∧ TaskStatus.exporting ≠ TaskStatus.completed := by
  constructor
  · norm_num [process_url, runGuarded, tryBody, translatePart, exportPart, finishPart,
      runDownloadCbs, runConvertCbs, TaskProgress.update_progress, TaskProgress.init,
      TaskProgress.cleanup, cNever, envOK, reportEv, optTruthy, sampleResult,
      show (("o" : String) = "") ↔ False from by simp]
  · decide

/-- Helper: a url is a task key exactly when it is a valid member of the
submitted list. -/
theorem taskKeys_mem (urls : List String) (u : String) :
    (u ∈ taskKeys urls) ↔ (u ∈ urls ∧ validate_url u = true) := by
  have h := taskKeys_go_mem urls [] u
  simpa [taskKeys] using h

/-- Helper: the task keys are duplicate-free. -/
theorem taskKeys_nodup (urls : List String) : (taskKeys urls).Nodup :=
  taskKeys_go_nodup urls [] List.nodup_nil

/-- C10: a duplicate valid url in the submitted list collapses into a
single job: the task keys are duplicate-free, a url is a key exactly when
it is a valid member of the list, a valid member occurs exactly once as a
key, the key count equals the count of distinct valid urls, and the
returned total counts the keys. -/
theorem C10_duplicates_collapse (urls : List String) (u : String) :
    (taskKeys urls).Nodup
  ∧ ((u ∈ taskKeys urls) ↔ (u ∈ urls ∧ validate_url u = true))
  ∧ (u ∈ urls → validate_url u = true → (taskKeys urls).count u = 1)
  ∧ (taskKeys urls).length = ((urls.filter (fun v => validate_url v)).dedup).length
  ∧ (taskKeys urls ≠ [] →
        (process_batch urls).total = (taskKeys urls).length
      ∧ (process_batch urls).tasks = taskKeys urls) := by
  refine ⟨taskKeys_nodup urls, taskKeys_mem urls u, ?_, ?_, ?_⟩
  · intro hmem hval
    exact List.count_eq_one_of_mem (taskKeys_nodup urls)
      ((taskKeys_mem urls u).mpr ⟨hmem, hval⟩)
  · have hperm : List.Perm (taskKeys urls) ((urls.filter (fun v => validate_url v)).dedup) := by
      refine (List.perm_ext_iff_of_nodup (taskKeys_nodup urls) (List.nodup_dedup _)).mpr ?_
      intro a
      rw [taskKeys_mem urls a, List.mem_dedup, List.mem_filter]
    exact hperm.length_eq
  · intro hne
    have hurls : urls ≠ [] := by
      intro h
      exact hne (by simp [h, taskKeys])
    simp [process_batch, hurls, hne]

/-- Witness for C10 at a concrete duplicate list. -/
theorem C10_duplicates_collapse_witness :
    (taskKeys ["https://youtu.be/b", "https://youtu.be/b"]).count "https://youtu.be/b" = 1
  ∧ (process_batch ["https://youtu.be/b", "https://youtu.be/b"]).total = 1 := by
  have h := C10_duplicates_collapse ["https://youtu.be/b", "https://youtu.be/b"]
    "https://youtu.be/b"
  refine ⟨h.2.2.1 (by decide) (by decide), ?_⟩
  rw [(h.2.2.2.2 (by decide)).1]
  decide

/-- C7 counterexample: the code validator is a substring check, not a host
allow-list: http://notyoutube.com/x has netloc notyoutube.com, which is
neither youtube.com, youtu.be, nor a subdomain of either (no dot-prefixed
occurrence at all), yet process_batch accepts it, creates a job for it and
reports started with total 1, where the claimed allow-list validator would
have dropped it and returned an error result. -/
theorem C7_counterexample :
    (process_batch ["http://notyoutube.com/x"]).status = "started"
  ∧ (process_batch ["http://notyoutube.com/x"]).total = 1
  ∧ (urlparse "http://notyoutube.com/x").scheme = "http"
  ∧ (urlparse "http://notyoutube.com/x").netloc = "notyoutube.com"
  ∧ ("notyoutube.com" : String) ≠ "youtube.com"
  ∧ ("notyoutube.com" : String) ≠ "youtu.be"
  ∧ isSubstrChars ".youtube.com".data "notyoutube.com".data = false
  ∧ isSubstrChars ".youtu.be".data "notyoutube.com".data = false := by
  decide

/-- Helper: unfolding of the code validator into its scheme and substring
conditions. -/
theorem validate_url_iff (u : String) :
    validate_url u = true ↔
      (u ≠ ""
       ∧ ((urlparse u).scheme = "http" ∨ (urlparse u).scheme = "https")
       ∧ (isSubstrChars "youtube.com".data (urlparse u).netloc.data = true
          ∨ isSubstrChars "youtu.be".data (urlparse u).netloc.data = true)) := by
  unfold validate_url
  by_cases h : u = ""
  · simp [h]
  · simp [h]

/-- C7 amended: the validator accepts a url exactly when its scheme is
http or https and its netloc CONTAINS youtube.com or youtu.be as a
substring (not an allow-list membership test); process_batch silently
drops every rejected identifier, creates exactly one job per remaining
distinct valid identifier, returns started with total equal to their
count, and returns an error result without starting anything when the
list is empty or no valid identifier remains. -/
theorem C7_amended (urls : List String) (u : String) :
    (validate_url u = true ↔
      (u ≠ ""
       ∧ ((urlparse u).scheme = "http" ∨ (urlparse u).scheme = "https")
       ∧ (isSubstrChars "youtube.com".data (urlparse u).netloc.data = true
          ∨ isSubstrChars "youtu.be".data (urlparse u).netloc.data = true)))
  ∧ (urls = [] →
        process_batch urls = { status := "error", message := some "No URLs provided" })
  ∧ (urls ≠ [] → (∀ v ∈ urls, validate_url v = false) →
        process_batch urls
          = { status := "error", message := some "No valid YouTube URLs provided" })
  ∧ (taskKeys urls ≠ [] →
        (process_batch urls).status = "started"
      ∧ (process_batch urls).tasks = taskKeys urls
      ∧ (process_batch urls).total = (taskKeys urls).length)
  ∧ ((u ∈ taskKeys urls) ↔ (u ∈ urls ∧ validate_url u = true))
  ∧ (taskKeys urls).Nodup := by
  refine ⟨validate_url_iff u, ?_, ?_, ?_, taskKeys_mem urls u, taskKeys_nodup urls⟩
  · intro h
    simp [process_batch, h]
  · intro hne hall
    have hkeys : taskKeys urls = [] := by
      by_contra hk
      rcases List.exists_mem_of_ne_nil _ hk with ⟨a, ha⟩
      have hmem := (taskKeys_mem urls a).mp ha
      have hfalse := hall a hmem.1
      rw [hmem.2] at hfalse
      exact Bool.noConfusion hfalse
    simp [process_batch, hne, hkeys]
  · intro hne
    have hurls : urls ≠ [] := by
      intro h
      exact hne (by simp [h, taskKeys])
    simp [process_batch, hurls, hne]

/-- Witness for C7 amended at the three-identifier scenario of the spec:
one invalid identifier is dropped, two jobs are created, total is 2. -/
theorem C7_amended_witness :
    (process_batch ["https://youtube.com/watch?v=a", "https://youtu.be/b", "ftp://youtube.com/c"]).status
        = "started"
  ∧ (process_batch ["https://youtube.com/watch?v=a", "https://youtu.be/b", "ftp://youtube.com/c"]).total
        = 2 := by
  have h := (C7_amended
    ["https://youtube.com/watch?v=a", "https://youtu.be/b", "ftp://youtube.com/c"]
    "https://youtu.be/b").2.2.2.1 (by decide)
  refine ⟨h.1, ?_⟩
  rw [h.2.2]
  decide

/-- acquiredTemps distributes over append. -/
@[simp]
theorem acquiredTemps_append (l1 l2 : List Ev) :
    acquiredTemps (l1 ++ l2) = acquiredTemps l1 ++ acquiredTemps l2 := by
  simp [acquiredTemps]

/-- acquiredTemps of the empty trace. -/
@[simp]
theorem acquiredTemps_nil : acquiredTemps [] = [] := rfl

/-- Report events acquire nothing. -/
@[simp]
theorem acquiredTemps_cons_report (s : TaskStatus) (p : ℚ) (l : List Ev) :
    acquiredTemps (Ev.report s p :: l) = acquiredTemps l := rfl

/-- Report events acquire nothing (reportEv form). -/
@[simp]
theorem acquiredTemps_cons_reportEv (t : TaskProgress) (l : List Ev) :
    acquiredTemps (reportEv t :: l) = acquiredTemps l := rfl

/-- Cancellation observations acquire nothing. -/
@[simp]
theorem acquiredTemps_cons_check (k : Nat) (b : Bool) (l : List Ev) :
    acquiredTemps (Ev.checkCancel k b :: l) = acquiredTemps l := rfl

/-- Cache lookups acquire nothing. -/
@[simp]
theorem acquiredTemps_cons_cacheGet (k : String) (l : List Ev) :
    acquiredTemps (Ev.callCacheGet k :: l) = acquiredTemps l := rfl

/-- Cache stores acquire nothing. -/
@[simp]
theorem acquiredTemps_cons_cacheStore (k : String) (l : List Ev) :
    acquiredTemps (Ev.callCacheStore k :: l) = acquiredTemps l := rfl

/-- The download call event acquires nothing. -/
@[simp]
theorem acquiredTemps_cons_callDownload (l : List Ev) :
    acquiredTemps (Ev.callDownload :: l) = acquiredTemps l := rfl

/-- The convert call event acquires nothing. -/
@[simp]
theorem acquiredTemps_cons_callConvert (l : List Ev) :
    acquiredTemps (Ev.callConvert :: l) = acquiredTemps l := rfl

/-- The transcribe call event acquires nothing. -/
@[simp]
theorem acquiredTemps_cons_callTranscribe (l : List Ev) :
    acquiredTemps (Ev.callTranscribe :: l) = acquiredTemps l := rfl

/-- The translate call event acquires nothing. -/
@[simp]
theorem acquiredTemps_cons_callTranslate (l : List Ev) :
    acquiredTemps (Ev.callTranslate :: l) = acquiredTemps l := rfl

/-- The export call event acquires nothing. -/
@[simp]
theorem acquiredTemps_cons_callExport (l : List Ev) :
    acquiredTemps (Ev.callExport :: l) = acquiredTemps l := rfl

/-- An acquisition event records its path. -/
@[simp]
theorem acquiredTemps_cons_acquire (p : String) (l : List Ev) :
    acquiredTemps (Ev.acquireTemp p :: l) = p :: acquiredTemps l := rfl

/-- Resource accounting for a try-block outcome: the task carries exactly
the given temp files and the events record exactly the given
acquisitions. -/
def AccOut (tmp acq : List String) : Except TryExc TryOk → Prop
  | .error (_, t, evs) => t.temp_files = tmp ∧ acquiredTemps evs = acq
  | .ok (t, evs, _) => t.temp_files = tmp ∧ acquiredTemps evs = acq

/-- The download callbacks neither touch the temp-file list nor acquire
resources (they only report). -/
theorem runDownloadCbs_acc (t : TaskProgress) (fs : List ℚ) :
    (runDownloadCbs t fs).1.temp_files = t.temp_files
  ∧ acquiredTemps (runDownloadCbs t fs).2 = [] := by
  induction fs generalizing t with
  | nil => simp [runDownloadCbs, acquiredTemps]
  | cons f rest ih =>
    have h := ih ({ t with download_progress := f }).update_progress
    simp only [runDownloadCbs]
    constructor
    · rw [h.1]
      simp [TaskProgress.update_progress]
      split <;> rfl
    · simp [acquiredTemps, reportEv] at h ⊢
      exact h.2

/-- The conversion callbacks neither touch the temp-file list nor acquire
resources. -/
theorem runConvertCbs_acc (t : TaskProgress) (fs : List ℚ) :
    (runConvertCbs t fs).1.temp_files = t.temp_files
  ∧ acquiredTemps (runConvertCbs t fs).2 = [] := by
  induction fs generalizing t with
  | nil => simp [runConvertCbs, acquiredTemps]
  | cons f rest ih =>
    have h := ih ({ t with conversion_progress := f }).update_progress
    simp only [runConvertCbs]
    constructor
    · rw [h.1]
      simp [TaskProgress.update_progress]
      split <;> rfl
    · simp [acquiredTemps, reportEv] at h ⊢
      exact h.2

/-- finishPart preserves the resource accounting. -/
theorem finishPart_acc (cm : Option CMState) (env : PipeEnv) {t : TaskProgress}
    {evs : List Ev} (res : TranscriptResult) (url model : String)
    (target_lang : Option String) (now : ℚ) (tmp acq : List String)
    (hm : t.temp_files = tmp) (ha : acquiredTemps evs = acq) :
    AccOut tmp acq (finishPart cm env t evs res url model target_lang now) := by
  subst hm ha
  cases cm <;> simp [finishPart, AccOut, acquiredTemps_append, acquiredTemps, reportEv]

/-- exportPart preserves the resource accounting. -/
theorem exportPart_acc (cm : Option CMState) (c : Nat → Bool) (env : PipeEnv)
    {t : TaskProgress} {evs : List Ev} (res : TranscriptResult) (url model : String)
    (target_lang output_dir : Option String) (formats : List String) (now : ℚ)
    (tmp acq : List String) (hm : t.temp_files = tmp) (ha : acquiredTemps evs = acq) :
    AccOut tmp acq
      (exportPart cm c env t evs res url model target_lang output_dir formats now) := by
  subst hm ha
  unfold exportPart
  by_cases hreq : (!formats.isEmpty && optTruthy output_dir) = true
  · simp only [hreq, if_true]
    by_cases h5 : c 5 = true
    · simp [h5, AccOut, acquiredTemps_append, acquiredTemps, reportEv,
        TaskProgress.update_progress]
    · simp only [h5, Bool.false_eq_true, if_false]
      cases hexp : env.exportOut with
      | error m =>
        simp [AccOut, acquiredTemps_append, acquiredTemps, reportEv,
          TaskProgress.update_progress]
      | ok u =>
        exact finishPart_acc cm env res url model target_lang now _ _
          (by simp [TaskProgress.update_progress])
          (by simp [acquiredTemps_append, acquiredTemps, reportEv])
  · simp only [hreq, Bool.false_eq_true, if_false]
    exact finishPart_acc cm env res url model target_lang now _ _ rfl rfl

/-- translatePart preserves the resource accounting. -/
theorem translatePart_acc (cm : Option CMState) (c : Nat → Bool) (env : PipeEnv)
    {t : TaskProgress} {evs : List Ev} (res : TranscriptResult) (url model : String)
    (target_lang output_dir : Option String) (formats : List String) (now : ℚ)
    (tmp acq : List String) (hm : t.temp_files = tmp) (ha : acquiredTemps evs = acq) :
    AccOut tmp acq
      (translatePart cm c env t evs res url model target_lang output_dir formats now) := by
  subst hm ha
  unfold translatePart
  by_cases htl : optTruthy target_lang = true
  · simp only [htl, if_true]
    by_cases h4 : c 4 = true
    · simp [h4, AccOut, acquiredTemps_append, acquiredTemps, reportEv,
        TaskProgress.update_progress]
    · simp only [h4, Bool.false_eq_true, if_false]
      cases htr : env.translateOut with
      | error m =>
        simp [AccOut, acquiredTemps_append, acquiredTemps, reportEv,
          TaskProgress.update_progress]
      | ok tr =>
        exact exportPart_acc cm c env _ url model target_lang output_dir formats now _ _
          (by simp [TaskProgress.update_progress])
          (by simp [acquiredTemps_append, acquiredTemps, reportEv])
  · simp only [htl, Bool.false_eq_true, if_false]
    exact exportPart_acc cm c env res url model target_lang output_dir formats now _ _
      rfl rfl

/-- Terminal resource accounting of a try-block outcome: the task holds
exactly the acquired temp files. -/
def AccOk : Except TryExc TryOk → Prop
  | .error (_, t, evs) => t.temp_files = acquiredTemps evs
  | .ok (t, evs, _) => t.temp_files = acquiredTemps evs

/-- AccOut with equal components gives the terminal accounting. -/
theorem accOk_of_accOut {e : Except TryExc TryOk} {x : List String} (h : AccOut x x e) :
    AccOk e := by
  match e with
  | .error (m, t, evs) =>
    simp only [AccOut] at h
    simp [AccOk, h.1, h.2]
  | .ok (t, evs, cm1) =>
    simp only [AccOut] at h
    simp [AccOk, h.1, h.2]

/-- The try block of _process_url keeps the task temp-file list equal to
the acquisitions recorded in its events, on every outcome. -/
theorem tryBody_acc (cm : Option CMState) (c : Nat → Bool) (env : PipeEnv)
    (url model : String) (target_lang output_dir : Option String)
    (formats : List String) (now : ℚ) :
    AccOk (tryBody cm c env (TaskProgress.init url) url model target_lang output_dir
      formats now) := by
  unfold tryBody
  by_cases h1 : c 1 = true
  · simp [h1, AccOk, TaskProgress.init]
  · simp only [h1, Bool.false_eq_true, if_false]
    rcases hD : runDownloadCbs { TaskProgress.init url with status := TaskStatus.downloading }
      env.downloadCbs with ⟨TD, DE⟩
    have hDacc := runDownloadCbs_acc
      { TaskProgress.init url with status := TaskStatus.downloading } env.downloadCbs
    rw [hD] at hDacc
    obtain ⟨hD1, hD2⟩ := hDacc
    simp only [TaskProgress.init] at hD1
    cases hdl : env.download with
    | error m =>
      simp [hdl, hD, AccOk, hD1, hD2, TaskProgress.init]
    | ok audio_path =>
      simp only [hdl, hD]
      by_cases h2 : c 2 = true
      · simp [h2, AccOk, hD1, hD2, TaskProgress.init]
      · simp only [h2, Bool.false_eq_true, if_false]
        rcases hC : runConvertCbs { TD with temp_files := TD.temp_files ++ [audio_path], status := TaskStatus.converting } env.convertCbs with ⟨TC, CE⟩
        have hCacc := runConvertCbs_acc { TD with temp_files := TD.temp_files ++ [audio_path], status := TaskStatus.converting } env.convertCbs
        rw [hC] at hCacc
        obtain ⟨hC1, hC2⟩ := hCacc
        simp only at hC1
        cases hcv : env.convert with
        | error m =>
          simp [hcv, AccOk, hC1, hC2, hD1, hD2, TaskProgress.init]
        | ok wav_path =>
          simp only [hcv]
          by_cases h3 : c 3 = true
          · simp [h3, AccOk, hC1, hC2, hD1, hD2, TaskProgress.update_progress,
              TaskProgress.init]
          · simp only [h3, Bool.false_eq_true, if_false]
            cases hts : env.transcribeOut with
            | error m =>
              simp [hts, AccOk, hC1, hC2, hD1, hD2, TaskProgress.update_progress,
                TaskProgress.init]
            | ok res =>
              simp only [hts]
              apply accOk_of_accOut
              apply translatePart_acc
              · show _ = [audio_path, wav_path]
                simp [TaskProgress.update_progress, hC1, hD1]
              · show _ = [audio_path, wav_path]
                simp [hD2, hC2]

/-- The guarded pipeline (try/except/finally) empties the task temp-file
list and passes exactly the acquired temp files to cleanup, for every
outcome, provided the prefix events acquire nothing. -/
theorem runGuarded_acc (cm : Option CMState) (c : Nat → Bool) (env : PipeEnv)
    (evs0 : List Ev) (url model : String) (target_lang output_dir : Option String)
    (formats : List String) (now : ℚ) (h0 : acquiredTemps evs0 = []) :
    (runGuarded cm c env (TaskProgress.init url) evs0 url model target_lang output_dir
      formats now).task.temp_files = []
  ∧ (runGuarded cm c env (TaskProgress.init url) evs0 url model target_lang output_dir
      formats now).released
      = acquiredTemps (runGuarded cm c env (TaskProgress.init url) evs0 url model
          target_lang output_dir formats now).trace := by
  have hA := tryBody_acc cm c env url model target_lang output_dir formats now
  unfold runGuarded
  cases htb : tryBody cm c env (TaskProgress.init url) url model target_lang output_dir
      formats now with
  | ok p =>
    obtain ⟨t, evs, cm1⟩ := p
    rw [htb] at hA
    simp only [AccOk] at hA
    by_cases hemp : t.temp_files = []
    · simp [TaskProgress.cleanup, hemp, h0, ← hA]
    · simp [TaskProgress.cleanup, hemp, h0, ← hA]
  | error p =>
    obtain ⟨m, t, evs⟩ := p
    rw [htb] at hA
    simp only [AccOk] at hA
    by_cases hemp : t.temp_files = []
    · simp [TaskProgress.cleanup, hemp, h0, ← hA]
    · simp [TaskProgress.cleanup, hemp, h0, ← hA]

/-- C9: on every execution path of _process_url (normal completion,
collaborator failure mid-stage, cooperative cancellation, cache hit), the
job ends with an empty temp-file list and the files passed to
cleanup_temp_files are exactly the temp files acquired during the run; the
external cleanup_temp_files itself catches its own removal errors
(src/audio_utils.py lines 249-255), so cleanup never raises into the
caller. -/
theorem C9_cleanup_on_all_paths (cm : Option CMState) (c : Nat → Bool) (env : PipeEnv)
    (url model : String) (target_lang output_dir : Option String)
    (formats : List String) (now : ℚ) :
    (process_url cm c env (TaskProgress.init url) url model target_lang output_dir
      formats now).task.temp_files = []
  ∧ (process_url cm c env (TaskProgress.init url) url model target_lang output_dir
      formats now).released
      = acquiredTemps (process_url cm c env (TaskProgress.init url) url model
          target_lang output_dir formats now).trace := by
  unfold process_url
  by_cases h0 : c 0 = true
  · simp [h0, TaskProgress.update_progress, TaskProgress.init]
  · simp only [h0, Bool.false_eq_true, if_false]
    cases cm with
    | none =>
      exact runGuarded_acc none c env [Ev.checkCancel 0 false] url model target_lang
        output_dir formats now rfl
    | some st =>
      cases hv : (CacheManager.get st CacheType.transcription url
          (getParams model target_lang) now env.cacheGetExc env.cacheGetMetaExc).value with
      | some r =>
        simp only [hv]
        by_cases hreq : (!formats.isEmpty && optTruthy output_dir) = true
        · simp only [hreq, if_true]
          cases hexp : env.exportOut with
          | error m => simp [TaskProgress.init]
          | ok u => simp [TaskProgress.init]
        · simp only [hreq, Bool.false_eq_true, if_false]
          simp [TaskProgress.init]
      | none =>
        simp only [hv]
        exact runGuarded_acc
          (some (CacheManager.get st CacheType.transcription url
            (getParams model target_lang) now env.cacheGetExc env.cacheGetMetaExc).state)
          c env
          [Ev.checkCancel 0 false, Ev.callCacheGet (get_cache_key url
            (getParams model target_lang))]
          url model target_lang output_dir formats now rfl

/-- Two try-block outcomes that agree on everything the job state depends
on: equal exception payloads, or equal completed tasks and results. -/
def SameTask : Except TryExc TryOk → Except TryExc TryOk → Prop
  | .error (m1, t1, _), .error (m2, t2, _) => m1 = m2 ∧ t1 = t2
  | .ok (t1, _, _), .ok (t2, _, _) => t1 = t2
  | _, _ => False

/-- finishPart always completes, with a task that does not depend on the
cache manager. -/
theorem finishPart_task (cm : Option CMState) (env : PipeEnv) (t : TaskProgress)
    (evs : List Ev) (res : TranscriptResult) (url model : String)
    (target_lang : Option String) (now : ℚ) :
    ∃ evs1 cm1,
      finishPart cm env t evs res url model target_lang now
        = .ok ({ t with status := TaskStatus.completed, progress := 1, result := some res },
            evs1, cm1) := by
  cases cm <;> simp [finishPart]

/-- The task thread of exportPart does not depend on the cache manager. -/
theorem exportPart_sameTask (cm cm' : Option CMState) (c : Nat → Bool) (env : PipeEnv)
    (t : TaskProgress) (evs evs' : List Ev) (res : TranscriptResult) (url model : String)
    (target_lang output_dir : Option String) (formats : List String) (now : ℚ) :
    SameTask (exportPart cm c env t evs res url model target_lang output_dir formats now)
      (exportPart cm' c env t evs' res url model target_lang output_dir formats now) := by
  unfold exportPart
  by_cases hreq : (!formats.isEmpty && optTruthy output_dir) = true
  · simp only [hreq, if_true]
    by_cases h5 : c 5 = true
    · simp [h5, SameTask]
    · simp only [h5, Bool.false_eq_true, if_false]
      cases hexp : env.exportOut with
      | error m => simp [SameTask]
      | ok u =>
        obtain ⟨e1, c1, h1⟩ := finishPart_task cm env _ _ res url model target_lang now
        obtain ⟨e2, c2, h2⟩ := finishPart_task cm' env _ _ res url model target_lang now
        rw [h1, h2]
        simp [SameTask]
  · simp only [hreq, Bool.false_eq_true, if_false]
    obtain ⟨e1, c1, h1⟩ := finishPart_task cm env t evs res url model target_lang now
    obtain ⟨e2, c2, h2⟩ := finishPart_task cm' env t evs' res url model target_lang now
    rw [h1, h2]
    simp [SameTask]

/-- The task thread of translatePart does not depend on the cache
manager. -/
theorem translatePart_sameTask (cm cm' : Option CMState) (c : Nat → Bool) (env : PipeEnv)
    (t : TaskProgress) (evs evs' : List Ev) (res : TranscriptResult) (url model : String)
    (target_lang output_dir : Option String) (formats : List String) (now : ℚ) :
    SameTask (translatePart cm c env t evs res url model target_lang output_dir formats now)
      (translatePart cm' c env t evs' res url model target_lang output_dir formats now) := by
  unfold translatePart
  by_cases htl : optTruthy target_lang = true
  · simp only [htl, if_true]
    by_cases h4 : c 4 = true
    · simp [h4, SameTask]
    · simp only [h4, Bool.false_eq_true, if_false]
      cases htr : env.translateOut with
      | error m => simp [SameTask]
      | ok tr =>
        apply exportPart_sameTask
  · simp only [htl, Bool.false_eq_true, if_false]
    exact exportPart_sameTask cm cm' c env t evs evs' res url model target_lang
      output_dir formats now

/-- The task thread of the try block does not depend on the cache
manager. -/
theorem tryBody_sameTask (cm cm' : Option CMState) (c : Nat → Bool) (env : PipeEnv)
    (t0 : TaskProgress) (url model : String) (target_lang output_dir : Option String)
    (formats : List String) (now : ℚ) :
    SameTask (tryBody cm c env t0 url model target_lang output_dir formats now)
      (tryBody cm' c env t0 url model target_lang output_dir formats now) := by
  unfold tryBody
  by_cases h1 : c 1 = true
  · simp [h1, SameTask]
  · simp only [h1, Bool.false_eq_true, if_false]
    rcases hD : runDownloadCbs { t0 with status := TaskStatus.downloading }
      env.downloadCbs with ⟨TD, DE⟩
    cases hdl : env.download with
    | error m => simp [SameTask]
    | ok audio_path =>
      simp only
      by_cases h2 : c 2 = true
      · simp [h2, SameTask]
      · simp only [h2, Bool.false_eq_true, if_false]
        rcases hC : runConvertCbs { TD with temp_files := TD.temp_files ++ [audio_path], status := TaskStatus.converting } env.convertCbs with ⟨TC, CE⟩
        cases hcv : env.convert with
        | error m => simp [SameTask]
        | ok wav_path =>
          simp only
          by_cases h3 : c 3 = true
          · simp [h3, SameTask]
          · simp only [h3, Bool.false_eq_true, if_false]
            cases hts : env.transcribeOut with
            | error m => simp [SameTask]
            | ok res =>
              apply translatePart_sameTask

/-- The job state and the return value of the guarded pipeline do not
depend on the cache manager or on the prefix events. -/
theorem runGuarded_sameTask (cm cm' : Option CMState) (c : Nat → Bool) (env : PipeEnv)
    (t0 : TaskProgress) (evs0 evs0' : List Ev) (url model : String)
    (target_lang output_dir : Option String) (formats : List String) (now : ℚ) :
    (runGuarded cm c env t0 evs0 url model target_lang output_dir formats now).task
      = (runGuarded cm' c env t0 evs0' url model target_lang output_dir formats now).task
  ∧ (runGuarded cm c env t0 evs0 url model target_lang output_dir formats now).ret
      = (runGuarded cm' c env t0 evs0' url model target_lang output_dir formats now).ret := by
  have hS := tryBody_sameTask cm cm' c env t0 url model target_lang output_dir formats now
  unfold runGuarded
  cases htb : tryBody cm c env t0 url model target_lang output_dir formats now with
  | ok p =>
    obtain ⟨t, evs, cm1⟩ := p
    cases htb' : tryBody cm' c env t0 url model target_lang output_dir formats now with
    | ok p' =>
      obtain ⟨t', evs', cm1'⟩ := p'
      rw [htb, htb'] at hS
      simp only [SameTask] at hS
      subst hS
      simp
    | error p' =>
      rw [htb, htb'] at hS
      simp [SameTask] at hS
  | error p =>
    obtain ⟨m, t, evs⟩ := p
    cases htb' : tryBody cm' c env t0 url model target_lang output_dir formats now with
    | ok p' =>
      rw [htb, htb'] at hS
      simp [SameTask] at hS
    | error p' =>
      obtain ⟨m', t', evs'⟩ := p'
      rw [htb, htb'] at hS
      simp only [SameTask] at hS
      obtain ⟨rfl, rfl⟩ := hS
      simp

/-- A raising backend read makes CacheManager.get return None. -/
theorem cacheGet_backendExc_value {V : Type} (st : CacheManagerState V) (ct : CacheType)
    (key : String) (ps : List (String × Option String)) (now : ℚ) (m : String)
    (mx : Option String) :
    (CacheManager.get st ct key ps now (some m) mx).value = none := rfl

/-- C6: the cache layer absorbs every internal error.  A raising backend
read returns None to the caller, bumps only the error counter of its
namespace and leaves every backend untouched; a metadata-bookkeeping
failure after a hit still returns None (with the hit counted); a raising
backend write returns False and bumps only the error counter; a
metadata-bookkeeping failure after a successful write returns False with
the entry nevertheless written; and a backend read error never reaches the
job layer: the run behaves exactly like a run without a cache manager. -/
theorem C6_cache_errors_absorbed :
    (∀ (V : Type) (st : CacheManagerState V) (ct : CacheType) (key : String)
        (ps : List (String × Option String)) (now : ℚ) (m : String) (mx : Option String),
        (CacheManager.get st ct key ps now (some m) mx).value = none
      ∧ (CacheManager.get st ct key ps now (some m) mx).state.stats ct
          = { st.stats ct with errors := (st.stats ct).errors + 1 }
      ∧ (∀ x, x ≠ ct →
          (CacheManager.get st ct key ps now (some m) mx).state.stats x = st.stats x)
      ∧ (CacheManager.get st ct key ps now (some m) mx).state.caches = st.caches)
  ∧ (∀ (V : Type) (st : CacheManagerState V) (ct : CacheType) (key : String)
        (ps : List (String × Option String)) (now : ℚ) (v : V) (m : String),
        ct ≠ CacheType.metadata →
        backendGet (st.caches ct) (get_cache_key key ps) now = some v →
        (CacheManager.get st ct key ps now none (some m)).value = none
      ∧ (CacheManager.get st ct key ps now none (some m)).state.stats ct
          = { st.stats ct with hits := (st.stats ct).hits + 1, errors := (st.stats ct).errors + 1 })
  ∧ (∀ (V : Type) (st : CacheManagerState V) (ct : CacheType) (key : String) (data : V)
        (ps : List (String × Option String)) (ttl : Option ℚ) (now : ℚ) (m : String)
        (mx : Option String) (setOk : Bool),
        (CacheManager.store st ct key data ps ttl now (some m) mx setOk).ok = false
      ∧ (CacheManager.store st ct key data ps ttl now (some m) mx setOk).state.stats ct
          = { st.stats ct with errors := (st.stats ct).errors + 1 }
      ∧ (CacheManager.store st ct key data ps ttl now (some m) mx setOk).state.caches
          = st.caches)
  ∧ (∀ (V : Type) (st : CacheManagerState V) (ct : CacheType) (key : String) (data : V)
        (ps : List (String × Option String)) (ttl : Option ℚ) (now : ℚ) (m : String),
        ct ≠ CacheType.metadata →
        (CacheManager.store st ct key data ps ttl now none (some m) true).ok = false
      ∧ (CacheManager.store st ct key data ps ttl now none (some m) true).state.stats ct
          = { st.stats ct with stores := (st.stats ct).stores + 1, errors := (st.stats ct).errors + 1 }
      ∧ (CacheManager.store st ct key data ps ttl now none (some m) true).state.caches ct
          = backendSet (st.caches ct) (get_cache_key key ps) data
              (some (now + ttl.getD st.default_ttl)))
  ∧ (∀ (st : CMState) (c : Nat → Bool) (env : PipeEnv) (url model : String)
        (target_lang output_dir : Option String) (formats : List String) (now : ℚ)
        (m : String),
        env.cacheGetExc = some m →
        (process_url (some st) c env (TaskProgress.init url) url model target_lang
          output_dir formats now).task
          = (process_url none c env (TaskProgress.init url) url model target_lang
              output_dir formats now).task
      ∧ (process_url (some st) c env (TaskProgress.init url) url model target_lang
          output_dir formats now).ret
          = (process_url none c env (TaskProgress.init url) url model target_lang
              output_dir formats now).ret) := by
  refine ⟨?_, ?_, ?_, ?_, ?_⟩
  · intro V st ct key ps now m mx
    refine ⟨rfl, ?_, ?_, rfl⟩
    · simp [CacheManager.get, updStats]
    · intro x hx
      simp [CacheManager.get, updStats, hx]
  · intro V st ct key ps now v m hct hhit
    constructor
    · simp [CacheManager.get, hhit, hct]
    · simp [CacheManager.get, hhit, hct, updStats]
  · intro V st ct key data ps ttl now m mx setOk
    refine ⟨rfl, ?_, rfl⟩
    simp [CacheManager.store, updStats]
  · intro V st ct key data ps ttl now m hct
    refine ⟨?_, ?_, ?_⟩
    · simp [CacheManager.store, hct]
    · simp [CacheManager.store, hct, updStats, updCache]
    · simp [CacheManager.store, hct, updStats, updCache]
  · intro st c env url model target_lang output_dir formats now m henv
    unfold process_url
    by_cases h0 : c 0 = true
    · simp [h0]
    · simp only [h0, Bool.false_eq_true, if_false, henv, cacheGet_backendExc_value]
      exact runGuarded_sameTask
        (some (CacheManager.get st CacheType.transcription url
          (getParams model target_lang) now (some m) env.cacheGetMetaExc).state)
        none c env (TaskProgress.init url)
        [Ev.checkCancel 0 false, Ev.callCacheGet (get_cache_key url
          (getParams model target_lang))]
        [Ev.checkCancel 0 false]
        url model target_lang output_dir formats now

/-- Witness for C6 at a concrete state and a concrete failing run. -/
theorem C6_cache_errors_absorbed_witness :
    (CacheManager.get emptyCM CacheType.transcription "u" [] 0 (some "disk io error")
      none).value = none
  ∧ (process_url (some emptyCM) cNever { envOK with cacheGetExc := some "disk io error" }
      (TaskProgress.init "u") "u" "small" none none [] 0).task
      = (process_url none cNever { envOK with cacheGetExc := some "disk io error" }
          (TaskProgress.init "u") "u" "small" none none [] 0).task := by
  constructor
  · exact (C6_cache_errors_absorbed.1 TranscriptResult emptyCM CacheType.transcription
      "u" [] 0 "disk io error" none).1
  · exact (C6_cache_errors_absorbed.2.2.2.2 emptyCM cNever
      { envOK with cacheGetExc := some "disk io error" } "u" "small" none none [] 0
      "disk io error" rfl).1

/-- A string free of the two separator characters of the key
serialization. -/
def cleanStr (s : String) : Prop := ('|' ∉ s.data) ∧ ('=' ∉ s.data)

/-- A parameter dict in canonical form: string-valued entries whose keys
and values avoid the separator characters, listed in strictly increasing
key order (the canonical order of sorted dict items). -/
def cleanParams (ps : List (String × Option String)) : Prop :=
  (∀ p ∈ ps, cleanStr p.1 ∧ ∃ s, p.2 = some s ∧ cleanStr s)
  ∧ List.Pairwise (fun a b : String × Option String => strLe a.1 b.1 = true) ps

/-- Splitting at the first occurrence of a separator is unique. -/
theorem sep_split_inj (sep : Char) :
    ∀ (a b x y : List Char), sep ∉ a → sep ∉ b → a ++ sep :: x = b ++ sep :: y →
      a = b ∧ x = y := by
  intro a
  induction a with
  | nil =>
    intro b x y _ hb h
    cases b with
    | nil => simpa using h
    | cons d b' =>
      simp only [List.nil_append, List.cons_append, List.cons.injEq] at h
      exact absurd (h.1 ▸ List.mem_cons_self d b') (by simpa [h.1] using hb)
  | cons c a' ih =>
    intro b x y ha hb h
    cases b with
    | nil =>
      simp only [List.cons_append, List.nil_append, List.cons.injEq] at h
      exact absurd (h.1 ▸ List.mem_cons_self c a') (by simpa [h.1] using ha)
    | cons d b' =>
      simp only [List.cons_append, List.cons.injEq] at h
      obtain ⟨rfl, h2⟩ := h
      have hrec := ih b' x y (fun hm => ha (List.mem_cons_of_mem _ hm))
        (fun hm => hb (List.mem_cons_of_mem _ hm)) h2
      exact ⟨by rw [hrec.1], hrec.2⟩

/-- The character tail contributed by the parameter parts of a joined key
string: a separator before each part. -/
def tailChars : List String → List Char
  | [] => []
  | y :: ys => '|' :: (y.data ++ tailChars ys)

/-- The data of a nonempty join is the head followed by the separated
tail. -/
theorem pyJoin_cons_data (x : String) (xs : List String) :
    (pyJoin "|" (x :: xs)).data = x.data ++ tailChars xs := by
  induction xs generalizing x with
  | nil => simp [pyJoin, tailChars]
  | cons y ys ih =>
    simp only [pyJoin, tailChars, String.data_append, ih y]
    simp

/-- tailChars output is empty or starts with the separator. -/
theorem tailChars_shape (l : List String) :
    tailChars l = [] ∨ ∃ r, tailChars l = '|' :: r := by
  cases l with
  | nil => exact Or.inl rfl
  | cons y ys => exact Or.inr ⟨y.data ++ tailChars ys, rfl⟩

/-- tailChars is injective on lists of separator-free parts. -/
theorem tailChars_inj :
    ∀ (l1 l2 : List String), (∀ x ∈ l1, '|' ∉ x.data) → (∀ x ∈ l2, '|' ∉ x.data) →
      tailChars l1 = tailChars l2 → l1 = l2 := by
  intro l1
  induction l1 with
  | nil =>
    intro l2 _ _ h
    cases l2 with
    | nil => rfl
    | cons y ys => simp [tailChars] at h
  | cons x xs ih =>
    intro l2 h1 h2 h
    cases l2 with
    | nil => simp [tailChars] at h
    | cons y ys =>
      simp only [tailChars, List.cons.injEq, true_and] at h
      have hx : '|' ∉ x.data := h1 x (List.mem_cons_self _ _)
      have hy : '|' ∉ y.data := h2 y (List.mem_cons_self _ _)
      have hsplit : x.data = y.data ∧ tailChars xs = tailChars ys := by
        rcases tailChars_shape xs with hs1 | ⟨r1, hs1⟩
        · rcases tailChars_shape ys with hs2 | ⟨r2, hs2⟩
          · rw [hs1, hs2] at h
            simp only [List.append_nil] at h
            exact ⟨h, by rw [hs1, hs2]⟩
          · rw [hs1, hs2] at h
            simp only [List.append_nil] at h
            exact absurd (h ▸ List.mem_append_right y.data (List.mem_cons_self '|' r2))
              (by simpa [h] using hx)
        · rcases tailChars_shape ys with hs2 | ⟨r2, hs2⟩
          · rw [hs1, hs2] at h
            simp only [List.append_nil] at h
            exact absurd (h ▸ List.mem_append_right x.data (List.mem_cons_self '|' r1))
              (by simpa [← h] using hy)
          · rw [hs1, hs2] at h
            have := sep_split_inj '|' x.data y.data r1 r2 hx hy h
            exact ⟨this.1, by rw [hs1, hs2, this.2]⟩
      exact List.cons_eq_cons.mpr ⟨String.ext hsplit.1,
        ih ys (fun z hz => h1 z (List.mem_cons_of_mem _ hz))
          (fun z hz => h2 z (List.mem_cons_of_mem _ hz)) hsplit.2⟩

/-- The rendered part of one parameter entry. -/
def paramPart (kv : String × Option String) : String := kv.1 ++ "=" ++ pyStr kv.2

/-- A clean parameter entry renders without the join separator. -/
theorem paramPart_no_bar (k : String) (s : String) (hk : cleanStr k) (hs : cleanStr s) :
    '|' ∉ (paramPart (k, some s)).data := by
  simp only [paramPart, pyStr, String.data_append, List.mem_append]
  rintro (h | h)
  · rcases h with h | h
    · exact hk.1 h
    · simp [show ("=" : String).data = ['='] from rfl] at h
  · exact hs.1 h

/-- Rendering of clean parameter entries is injective. -/
theorem paramPart_inj (k k' s s' : String) (hk : cleanStr k) (hk' : cleanStr k')
    (h : paramPart (k, some s) = paramPart (k', some s')) : k = k' ∧ s = s' := by
  have hd := congrArg String.data h
  simp only [paramPart, pyStr, String.data_append] at hd
  rw [List.append_assoc, List.append_assoc] at hd
  have heq : k.data ++ '=' :: s.data = k'.data ++ '=' :: s'.data := by
    simpa [show ("=" : String).data = ['='] from rfl] using hd
  have := sep_split_inj '=' k.data k'.data s.data s'.data hk.2 hk'.2 heq
  exact ⟨String.ext this.1, String.ext this.2⟩

/-- Clean canonical parameter lists with distinct contents serialize to
distinct key strings (for any shared primary key). -/
theorem cacheKeyString_inj (key : String) (ps1 ps2 : List (String × Option String))
    (h1 : cleanParams ps1) (h2 : cleanParams ps2) (hne : ps1 ≠ ps2) :
    cacheKeyString key ps1 ≠ cacheKeyString key ps2 := by
  intro heq
  apply hne
  have hsort1 : sortParams ps1 = ps1 := List.Sorted.insertionSort_eq h1.2
  have hsort2 : sortParams ps2 = ps2 := List.Sorted.insertionSort_eq h2.2
  have hd := congrArg String.data heq
  simp only [cacheKeyString, hsort1, hsort2] at hd
  rw [pyJoin_cons_data, pyJoin_cons_data] at hd
  have htails := List.append_cancel_left hd
  have hbar1 : ∀ x ∈ ps1.map (fun kv => kv.1 ++ "=" ++ pyStr kv.2), '|' ∉ x.data := by
    intro x hx
    rcases List.mem_map.mp hx with ⟨kv, hkv, rfl⟩
    obtain ⟨hck, s, hval, hcs⟩ := h1.1 kv hkv
    have := paramPart_no_bar kv.1 s hck hcs
    simpa [paramPart, hval] using this
  have hbar2 : ∀ x ∈ ps2.map (fun kv => kv.1 ++ "=" ++ pyStr kv.2), '|' ∉ x.data := by
    intro x hx
    rcases List.mem_map.mp hx with ⟨kv, hkv, rfl⟩
    obtain ⟨hck, s, hval, hcs⟩ := h2.1 kv hkv
    have := paramPart_no_bar kv.1 s hck hcs
    simpa [paramPart, hval] using this
  have hmaps := tailChars_inj _ _ hbar1 hbar2 htails
  clear hd htails heq hsort1 hsort2 hbar1 hbar2 hne
  induction ps1 generalizing ps2 with
  | nil =>
    cases ps2 with
    | nil => rfl
    | cons q qs => simp at hmaps
  | cons p pstail ih =>
    cases ps2 with
    | nil => simp at hmaps
    | cons q qs =>
      simp only [List.map_cons, List.cons.injEq] at hmaps
      obtain ⟨hck, s, hval, hcs⟩ := h1.1 p (List.mem_cons_self _ _)
      obtain ⟨hck', s', hval', hcs'⟩ := h2.1 q (List.mem_cons_self _ _)
      have hpq : p = q := by
        have hpart : paramPart (p.1, some s) = paramPart (q.1, some s') := by
          simpa [paramPart, hval, hval'] using hmaps.1
        have := paramPart_inj p.1 q.1 s s' hck hck' hpart
        have hp2 : p.2 = q.2 := by rw [hval, hval', this.2]
        exact Prod.ext this.1 hp2
      have htail : pstail = qs := by
        apply ih
        · exact ⟨fun r hr => h1.1 r (List.mem_cons_of_mem _ hr),
            (List.pairwise_cons.mp h1.2).2⟩
        · exact ⟨fun r hr => h2.1 r (List.mem_cons_of_mem _ hr),
            (List.pairwise_cons.mp h2.2).2⟩
        · exact hmaps.2
      rw [hpq, htail]

/-- Reading the key just written to the backend yields the written value
subject to its own expiry. -/
theorem backendGet_set_self {V : Type} (b : Backend V) (k : String) (v : V)
    (texp : Option ℚ) (now : ℚ) :
    backendGet (backendSet b k v texp) k now
      = (match texp with
         | none => some v
         | some t => if t < now then none else some v) := by
  cases texp <;> simp [backendGet, backendSet, List.find?]

/-- Writing one key leaves reads of a different key unchanged. -/
theorem backendGet_set_other {V : Type} (b : Backend V) (k k' : String) (v : V)
    (texp : Option ℚ) (now : ℚ) (h : k ≠ k') :
    backendGet (backendSet b k' v texp) k now = backendGet b k now := by
  have hfind : (backendSet b k' v texp).find? (fun e => e.1 == k)
      = b.find? (fun e => e.1 == k) := by
    simp only [backendSet, List.find?]
    have hk : (k' == k) = false := by
      simp [Ne.symm h]
    rw [hk]
    induction b with
    | nil => simp
    | cons e rest ih =>
      by_cases he : e.1 = k'
      · have h1 : (e.1 == k') = true := by simp [he]
        have h2 : (e.1 == k) = false := by simp [he ▸ Ne.symm h]
        simp only [List.filter_cons, h1, Bool.not_true, if_false, List.find?, h2]
        simpa using ih
      · have h1 : (e.1 == k') = false := by simp [he]
        simp only [List.filter_cons, h1, Bool.not_false, if_true, List.find?]
        cases hek : (e.1 == k) with
        | true => rfl
        | false => simpa using ih
  simp [backendGet, hfind]

/-- C5 amended: for every namespace and primary key, two store calls with
distinct canonical parameter dicts whose keys and values are string-valued
and avoid the separator characters write to distinct composite keys; a
subsequent get with each parameter set returns only the value stored under
that set, each entry expiring on its own clock (its own store time plus
its own TTL).  The separator restriction is necessary: the counterexample
shows two distinct parameter sets serializing to the same composite key
when a value embeds the separators. -/
theorem C5_amended (ct : CacheType) (st : CMState) (key : String)
    (ps1 ps2 : List (String × Option String)) (v1 v2 : TranscriptResult)
    (ttl1 ttl2 t1 t2 now : ℚ)
    (h1 : cleanParams ps1) (h2 : cleanParams ps2) (hne : ps1 ≠ ps2) :
    get_cache_key key ps1 ≠ get_cache_key key ps2
  ∧ ((CacheManager.get
        ((CacheManager.store
          ((CacheManager.store st ct key v1 ps1 (some ttl1) t1 none none true).state)
          ct key v2 ps2 (some ttl2) t2 none none true).state)
        ct key ps1 now none none).value
      = (if t1 + ttl1 < now then none else some v1))
  ∧ ((CacheManager.get
        ((CacheManager.store
          ((CacheManager.store st ct key v1 ps1 (some ttl1) t1 none none true).state)
          ct key v2 ps2 (some ttl2) t2 none none true).state)
        ct key ps2 now none none).value
      = (if t2 + ttl2 < now then none else some v2)) := by
  have hkne : get_cache_key key ps1 ≠ get_cache_key key ps2 :=
    cacheKeyString_inj key ps1 ps2 h1 h2 hne
  refine ⟨hkne, ?_, ?_⟩
  · have hread : backendGet
        (backendSet (backendSet (st.caches ct) (get_cache_key key ps1) v1
          (some (t1 + ttl1))) (get_cache_key key ps2) v2 (some (t2 + ttl2)))
        (get_cache_key key ps1) now
        = (if t1 + ttl1 < now then none else some v1) := by
      rw [backendGet_set_other _ _ _ _ _ _ hkne, backendGet_set_self]
    simp only [CacheManager.store, CacheManager.get, updStats, updCache, Option.getD,
      ite_self]
    simp only [if_true, if_pos rfl]
    rw [hread]
    by_cases ht : t1 + ttl1 < now
    · simp [ht]
    · simp [ht]
  · have hread : backendGet
        (backendSet (backendSet (st.caches ct) (get_cache_key key ps1) v1
          (some (t1 + ttl1))) (get_cache_key key ps2) v2 (some (t2 + ttl2)))
        (get_cache_key key ps2) now
        = (if t2 + ttl2 < now then none else some v2) := by
      rw [backendGet_set_self]
    simp only [CacheManager.store, CacheManager.get, updStats, updCache, Option.getD,
      ite_self]
    simp only [if_true, if_pos rfl]
    rw [hread]
    by_cases ht : t2 + ttl2 < now
    · simp [ht]
    · simp [ht]

/-- C5 counterexample: the serialization is not injective, so the claim
fails as stated: the distinct parameter dicts a -> b|c=d and
a -> b, c -> d serialize to the same composite key (u|a=b|c=d), hence the
second store overwrites the first and a get with the first parameter set
returns the second value. -/
theorem C5_counterexample :
    ([("a", some "b|c=d")] : List (String × Option String))
      ≠ [("a", some "b"), ("c", some "d")]
  ∧ get_cache_key "u" [("a", some "b|c=d")]
      = get_cache_key "u" [("a", some "b"), ("c", some "d")]
  ∧ (CacheManager.get
      ((CacheManager.store
        ((CacheManager.store emptyCM CacheType.transcription "u" sampleResult
          [("a", some "b|c=d")] none 0 none none true).state)
        CacheType.transcription "u" sampleResult2 [("a", some "b"), ("c", some "d")]
        none 0 none none true).state)
      CacheType.transcription "u" [("a", some "b|c=d")] 1 none none).value
      = some sampleResult2
  ∧ sampleResult2 ≠ sampleResult := by
  refine ⟨by decide, by decide, ?_, by decide⟩
  have hk : get_cache_key "u" ([("a", some "b"), ("c", some "d")] :
      List (String × Option String)) = get_cache_key "u" [("a", some "b|c=d")] := by
    decide
  simp only [CacheManager.store, CacheManager.get, updStats, updCache, Option.getD,
    ite_self, if_true, if_pos rfl, hk]
  rw [backendGet_set_self]
  norm_num [emptyCM]

/-- Witness for C5 amended at concrete clean parameter dicts with
different TTLs. -/
theorem C5_amended_witness :
    get_cache_key "u" [("m", some "small")] ≠ get_cache_key "u" [("m", some "large")]
  ∧ (CacheManager.get
      ((CacheManager.store
        ((CacheManager.store emptyCM CacheType.transcription "u" sampleResult
          [("m", some "small")] (some 10) 0 none none true).state)
        CacheType.transcription "u" sampleResult2 [("m", some "large")] (some 20) 0
        none none true).state)
      CacheType.transcription "u" [("m", some "small")] 5 none none).value
      = some sampleResult := by
  have hclean1 : cleanParams [("m", some "small")] := by
    refine ⟨?_, ?_⟩
    · intro p hp
      simp only [List.mem_singleton] at hp
      subst hp
      exact ⟨⟨by decide, by decide⟩, "small", rfl, by decide, by decide⟩
    · simp
  have hclean2 : cleanParams [("m", some "large")] := by
    refine ⟨?_, ?_⟩
    · intro p hp
      simp only [List.mem_singleton] at hp
      subst hp
      exact ⟨⟨by decide, by decide⟩, "large", rfl, by decide, by decide⟩
    · simp
  have h := C5_amended CacheType.transcription emptyCM "u" [("m", some "small")]
    [("m", some "large")] sampleResult sampleResult2 10 20 0 0 5 hclean1 hclean2
    (by decide)
  refine ⟨h.1, ?_⟩
  have h2 := h.2.1
  rw [if_neg (by norm_num)] at h2
  exact h2

/-- The cache state after a first full run of url u with model small and
no target language: the miss is counted, then the result is stored under
the storeParams composite key (which serializes target_lang=None). -/
def c2State1 : CMState :=
  (CacheManager.store
    ((CacheManager.get emptyCM CacheType.transcription "u" (getParams "small" none) 0
      none none).state)
    CacheType.transcription "u" sampleResult (storeParams "small" none) none 0
    none none true).state

/-- The result of the first run when translation to fr is requested. -/
def c2ResultFr : TranscriptResult := { sampleResult with translated_text := some "bonjour" }

/-- The cache state after a first full run of url u with model small and
target language fr. -/
def c2State2 : CMState :=
  (CacheManager.store
    ((CacheManager.get emptyCM CacheType.transcription "u" (getParams "small" (some "fr")) 0
      none none).state)
    CacheType.transcription "u" c2ResultFr (storeParams "small" (some "fr")) none 0
    none none true).state

/-- C2 divergence: with no target language the lookup key (params
model=small only, src/batch.py lines 219-223) differs from the store key
(params model=small and target_lang=None, lines 342-343), so a second run
of the same identifier with the same model and absent target language
misses the cache and re-runs the whole pipeline (download and transcribe
are called again, and the return is not marked cached), although the first
run completed and stored its result.  With a present target language the
keys coincide: the second run hits, transitions Pending to Completed
without calling download, convert or transcribe, returns the cached
result, and still performs the export stage. -/
theorem C2_code_divergence :
    get_cache_key "u" (getParams "small" none) ≠ get_cache_key "u" (storeParams "small" none)
  ∧ (process_url (some emptyCM) cNever envOK (TaskProgress.init "u") "u" "small" none
      none [] 0).task.status = TaskStatus.completed
  ∧ (process_url (some emptyCM) cNever envOK (TaskProgress.init "u") "u" "small" none
      none [] 0).cache = some c2State1
  ∧ backendGet (c2State1.caches CacheType.transcription)
      (get_cache_key "u" (storeParams "small" none)) 1 = some sampleResult
  ∧ (CacheManager.get c2State1 CacheType.transcription "u" (getParams "small" none) 1
      none none).value = none
  ∧ Ev.callDownload ∈ (process_url (some c2State1) cNever envOK (TaskProgress.init "u")
      "u" "small" none none [] 1).trace
  ∧ Ev.callTranscribe ∈ (process_url (some c2State1) cNever envOK (TaskProgress.init "u")
      "u" "small" none none [] 1).trace
  ∧ (process_url (some c2State1) cNever envOK (TaskProgress.init "u") "u" "small" none
      none [] 1).ret = .ok { status := "completed", cached := false }
  ∧ (process_url (some emptyCM) cNever envOK (TaskProgress.init "u") "u" "small"
      (some "fr") none [] 0).cache = some c2State2
  ∧ (CacheManager.get c2State2 CacheType.transcription "u" (getParams "small" (some "fr"))
      1 none none).value = some c2ResultFr
  ∧ (process_url (some c2State2) cNever envOK (TaskProgress.init "u") "u" "small"
      (some "fr") (some "o") ["srt"] 1).ret
      = .ok { status := "completed", cached := true }
  ∧ Ev.callDownload ∉ (process_url (some c2State2) cNever envOK (TaskProgress.init "u")
      "u" "small" (some "fr") (some "o") ["srt"] 1).trace
  ∧ Ev.callExport ∈ (process_url (some c2State2) cNever envOK (TaskProgress.init "u")
      "u" "small" (some "fr") (some "o") ["srt"] 1).trace
  ∧ (process_url (some c2State2) cNever envOK (TaskProgress.init "u") "u" "small"
      (some "fr") (some "o") ["srt"] 1).task.status = TaskStatus.completed
  ∧ (process_url (some c2State2) cNever envOK (TaskProgress.init "u") "u" "small"
      (some "fr") (some "o") ["srt"] 1).task.result = some c2ResultFr := by
  have hcache1 : c2State1.caches CacheType.transcription
      = backendSet [] (get_cache_key "u" (storeParams "small" none)) sampleResult
          (some (0 + 100)) := by
    simp [c2State1, CacheManager.store, CacheManager.get, updStats, updCache, emptyCM,
      ite_self, backendGet]
  have hmiss2 : (CacheManager.get c2State1 CacheType.transcription "u"
      (getParams "small" none) 1 none none).value = none := by
    simp only [CacheManager.get, hcache1]
    rw [backendGet_set_other _ _ _ _ _ _ (by decide)]
    simp [backendGet]
  have hcache2 : c2State2.caches CacheType.transcription
      = backendSet [] (get_cache_key "u" (storeParams "small" (some "fr"))) c2ResultFr
          (some (0 + 100)) := by
    simp [c2State2, CacheManager.store, CacheManager.get, updStats, updCache, emptyCM,
      ite_self, backendGet]
  have hkeyfr : get_cache_key "u" (getParams "small" (some "fr"))
      = get_cache_key "u" (storeParams "small" (some "fr")) := by decide
  have hhit2 : (CacheManager.get c2State2 CacheType.transcription "u"
      (getParams "small" (some "fr")) 1 none none).value = some c2ResultFr := by
    simp only [CacheManager.get, hcache2, hkeyfr]
    rw [backendGet_set_self]
    norm_num
  refine ⟨by decide, ?_, ?_, ?_, hmiss2, ?_, ?_, ?_, ?_, hhit2, ?_, ?_, ?_, ?_, ?_⟩
  · norm_num [process_url, runGuarded, tryBody, translatePart, exportPart, finishPart,
      runDownloadCbs, runConvertCbs, TaskProgress.update_progress, TaskProgress.init,
      TaskProgress.cleanup, cNever, envOK, reportEv, optTruthy, sampleResult,
      CacheManager.get, backendGet, emptyCM]
    simp
  · norm_num [process_url, runGuarded, tryBody, translatePart, exportPart, finishPart,
      runDownloadCbs, runConvertCbs, TaskProgress.update_progress, TaskProgress.init,
      TaskProgress.cleanup, cNever, envOK, reportEv, optTruthy, sampleResult,
      CacheManager.get, backendGet, emptyCM, c2State1]
  · rw [hcache1, backendGet_set_self]
    norm_num
  · simp only [process_url, cNever, envOK, Bool.false_eq_true, if_false, hmiss2]
    norm_num [runGuarded, tryBody, translatePart, exportPart, finishPart,
      runDownloadCbs, runConvertCbs, TaskProgress.update_progress, TaskProgress.init,
      TaskProgress.cleanup, cNever, envOK, reportEv, optTruthy, sampleResult]
  · simp only [process_url, cNever, envOK, Bool.false_eq_true, if_false, hmiss2]
    norm_num [runGuarded, tryBody, translatePart, exportPart, finishPart,
      runDownloadCbs, runConvertCbs, TaskProgress.update_progress, TaskProgress.init,
      TaskProgress.cleanup, cNever, envOK, reportEv, optTruthy, sampleResult]
  · simp only [process_url, cNever, envOK, Bool.false_eq_true, if_false, hmiss2]
    norm_num [runGuarded, tryBody, translatePart, exportPart, finishPart,
      runDownloadCbs, runConvertCbs, TaskProgress.update_progress, TaskProgress.init,
      TaskProgress.cleanup, cNever, envOK, reportEv, optTruthy, sampleResult]
  · norm_num [process_url, runGuarded, tryBody, translatePart, exportPart, finishPart,
      runDownloadCbs, runConvertCbs, TaskProgress.update_progress, TaskProgress.init,
      TaskProgress.cleanup, cNever, envOK, reportEv, optTruthy, sampleResult,
      CacheManager.get, backendGet, emptyCM, c2State2, c2ResultFr,
      show (("fr" : String) = "") ↔ False from by simp]
  · simp only [process_url, cNever, envOK, Bool.false_eq_true, if_false, hhit2]
    norm_num [TaskProgress.init, optTruthy, reportEv,
      show (("o" : String) = "") ↔ False from by simp]
  · simp only [process_url, cNever, envOK, Bool.false_eq_true, if_false, hhit2]
    norm_num [TaskProgress.init, optTruthy, reportEv,
      show (("o" : String) = "") ↔ False from by simp]
    exact ⟨by decide, by simp, by decide, by decide⟩
  · simp only [process_url, cNever, envOK, Bool.false_eq_true, if_false, hhit2]
    norm_num [TaskProgress.init, optTruthy, reportEv,
      show (("o" : String) = "") ↔ False from by simp]
  · simp only [process_url, cNever, envOK, Bool.false_eq_true, if_false, hhit2]
    norm_num [TaskProgress.init, optTruthy, reportEv,
      show (("o" : String) = "") ↔ False from by simp]
  · simp only [process_url, cNever, envOK, Bool.false_eq_true, if_false, hhit2]
    norm_num [TaskProgress.init, optTruthy, reportEv,
      show (("o" : String) = "") ↔ False from by simp]

/-- Whether an event is an observation of the cancellation switch that saw
it set. -/
def Ev.isTrueCheck : Ev → Bool
  | .checkCancel _ b => b
  | _ => false

/-- Whether a trace contains an observation that saw the switch set. -/
def containsTrueCheck (l : List Ev) : Bool := l.any Ev.isTrueCheck

/-- Scan of a trace for the cooperative-cancellation guarantee: after the
first observation that saw the switch set, no stage collaborator call may
appear. -/
def cleanAfterCancel : List Ev → Bool
  | [] => true
  | Ev.checkCancel _ true :: rest => rest.all (fun ev => !ev.isStageCall)
  | _ :: rest => cleanAfterCancel rest

/-- Scan step lemmas. -/
@[simp]
theorem cleanAfterCancel_nil : cleanAfterCancel [] = true := rfl

/-- Reports pass the scan. -/
@[simp]
theorem cleanAfterCancel_cons_report (s : TaskStatus) (p : ℚ) (l : List Ev) :
    cleanAfterCancel (Ev.report s p :: l) = cleanAfterCancel l := rfl

/-- Reports pass the scan (reportEv form). -/
@[simp]
theorem cleanAfterCancel_cons_reportEv (t : TaskProgress) (l : List Ev) :
    cleanAfterCancel (reportEv t :: l) = cleanAfterCancel l := rfl

/-- False observations pass the scan. -/
@[simp]
theorem cleanAfterCancel_cons_checkFalse (k : Nat) (l : List Ev) :
    cleanAfterCancel (Ev.checkCancel k false :: l) = cleanAfterCancel l := rfl

/-- A true observation requires the remainder to be free of stage calls. -/
@[simp]
theorem cleanAfterCancel_cons_checkTrue (k : Nat) (l : List Ev) :
    cleanAfterCancel (Ev.checkCancel k true :: l)
      = l.all (fun ev => !ev.isStageCall) := rfl

/-- Cache lookups pass the scan. -/
@[simp]
theorem cleanAfterCancel_cons_cacheGet (k : String) (l : List Ev) :
    cleanAfterCancel (Ev.callCacheGet k :: l) = cleanAfterCancel l := rfl

/-- Cache stores pass the scan. -/
@[simp]
theorem cleanAfterCancel_cons_cacheStore (k : String) (l : List Ev) :
    cleanAfterCancel (Ev.callCacheStore k :: l) = cleanAfterCancel l := rfl

/-- Download calls pass the scan. -/
@[simp]
theorem cleanAfterCancel_cons_callDownload (l : List Ev) :
    cleanAfterCancel (Ev.callDownload :: l) = cleanAfterCancel l := rfl

/-- Convert calls pass the scan. -/
@[simp]
theorem cleanAfterCancel_cons_callConvert (l : List Ev) :
    cleanAfterCancel (Ev.callConvert :: l) = cleanAfterCancel l := rfl

/-- Transcribe calls pass the scan. -/
@[simp]
theorem cleanAfterCancel_cons_callTranscribe (l : List Ev) :
    cleanAfterCancel (Ev.callTranscribe :: l) = cleanAfterCancel l := rfl

/-- Translate calls pass the scan. -/
@[simp]
theorem cleanAfterCancel_cons_callTranslate (l : List Ev) :
    cleanAfterCancel (Ev.callTranslate :: l) = cleanAfterCancel l := rfl

/-- Export calls pass the scan. -/
@[simp]
theorem cleanAfterCancel_cons_callExport (l : List Ev) :
    cleanAfterCancel (Ev.callExport :: l) = cleanAfterCancel l := rfl

/-- Acquisitions pass the scan. -/
@[simp]
theorem cleanAfterCancel_cons_acquire (p : String) (l : List Ev) :
    cleanAfterCancel (Ev.acquireTemp p :: l) = cleanAfterCancel l := rfl

/-- containsTrueCheck distributes over append as a disjunction. -/
theorem containsTrueCheck_append (l1 l2 : List Ev) :
    containsTrueCheck (l1 ++ l2) = (containsTrueCheck l1 || containsTrueCheck l2) := by
  simp [containsTrueCheck]

/-- A prefix without true observations passes the scan transparently. -/
theorem cleanAfterCancel_append_noTrue (l1 l2 : List Ev)
    (h : containsTrueCheck l1 = false) :
    cleanAfterCancel (l1 ++ l2) = cleanAfterCancel l2 := by
  induction l1 with
  | nil => simp
  | cons ev rest ih =>
    have h' : Ev.isTrueCheck ev = false ∧ containsTrueCheck rest = false := by
      simpa [containsTrueCheck, Bool.or_eq_false_iff] using h
    cases ev with
    | checkCancel k b =>
      have hb : b = false := by simpa [Ev.isTrueCheck] using h'.1
      subst hb
      simpa using ih h'.2
    | report s p => simpa using ih h'.2
    | callCacheGet k => simpa using ih h'.2
    | callCacheStore k => simpa using ih h'.2
    | callDownload => simpa using ih h'.2
    | callConvert => simpa using ih h'.2
    | callTranscribe => simpa using ih h'.2
    | callTranslate => simpa using ih h'.2
    | callExport => simpa using ih h'.2
    | acquireTemp p => simpa using ih h'.2

/-- A trace without true observations passes the scan. -/
theorem cleanAfterCancel_of_noTrue (l : List Ev) (h : containsTrueCheck l = false) :
    cleanAfterCancel l = true := by
  have := cleanAfterCancel_append_noTrue l [] h
  simpa using this

/-- A trace without stage calls passes the scan. -/
theorem cleanAfterCancel_of_nonstage (l : List Ev)
    (h : l.all (fun ev => !ev.isStageCall) = true) :
    cleanAfterCancel l = true := by
  induction l with
  | nil => rfl
  | cons ev rest ih =>
    have h' : (!ev.isStageCall) = true ∧ rest.all (fun ev => !ev.isStageCall) = true := by
      simpa [List.all_cons] using h
    cases ev with
    | checkCancel k b =>
      cases b with
      | true => simpa using h'.2
      | false => simpa using ih h'.2
    | report s p => simpa using ih h'.2
    | callCacheGet k => simpa using ih h'.2
    | callCacheStore k => simpa using ih h'.2
    | callDownload => simp [Ev.isStageCall] at h'
    | callConvert => simp [Ev.isStageCall] at h'
    | callTranscribe => simp [Ev.isStageCall] at h'
    | callTranslate => simp [Ev.isStageCall] at h'
    | callExport => simp [Ev.isStageCall] at h'
    | acquireTemp p => simpa using ih h'.2

/-- Every event reported by the download callbacks is a report. -/
theorem runDownloadCbs_reports (t : TaskProgress) (fs : List ℚ) :
    ∀ ev ∈ (runDownloadCbs t fs).2, ∃ s p, ev = Ev.report s p := by
  induction fs generalizing t with
  | nil => simp [runDownloadCbs]
  | cons f rest ih =>
    intro ev hev
    rcases hpair : runDownloadCbs (({ t with download_progress := f }).update_progress)
      rest with ⟨t2, evs⟩
    simp only [runDownloadCbs, hpair, List.mem_cons] at hev
    rcases hev with rfl | hev
    · exact ⟨_, _, rfl⟩
    · have hih := ih (({ t with download_progress := f }).update_progress)
      rw [hpair] at hih
      exact hih ev hev

/-- Every event reported by the conversion callbacks is a report. -/
theorem runConvertCbs_reports (t : TaskProgress) (fs : List ℚ) :
    ∀ ev ∈ (runConvertCbs t fs).2, ∃ s p, ev = Ev.report s p := by
  induction fs generalizing t with
  | nil => simp [runConvertCbs]
  | cons f rest ih =>
    intro ev hev
    rcases hpair : runConvertCbs (({ t with conversion_progress := f }).update_progress)
      rest with ⟨t2, evs⟩
    simp only [runConvertCbs, hpair, List.mem_cons] at hev
    rcases hev with rfl | hev
    · exact ⟨_, _, rfl⟩
    · have hih := ih (({ t with conversion_progress := f }).update_progress)
      rw [hpair] at hih
      exact hih ev hev

/-- A list of reports contains no true observation. -/
theorem containsTrueCheck_of_reports (l : List Ev)
    (h : ∀ ev ∈ l, ∃ s p, ev = Ev.report s p) : containsTrueCheck l = false := by
  simp only [containsTrueCheck, List.any_eq_false]
  intro ev hev
  obtain ⟨s, p, rfl⟩ := h ev hev
  simp [Ev.isTrueCheck]

/-- containsTrueCheck of the empty trace. -/
@[simp]
theorem containsTrueCheck_nil : containsTrueCheck [] = false := rfl

/-- A report is not a true observation. -/
@[simp]
theorem containsTrueCheck_cons_report (s : TaskStatus) (p : ℚ) (l : List Ev) :
    containsTrueCheck (Ev.report s p :: l) = containsTrueCheck l := by
  simp [containsTrueCheck, Ev.isTrueCheck]

/-- A report is not a true observation (reportEv form). -/
@[simp]
theorem containsTrueCheck_cons_reportEv (t : TaskProgress) (l : List Ev) :
    containsTrueCheck (reportEv t :: l) = containsTrueCheck l := by
  simp [containsTrueCheck, Ev.isTrueCheck, reportEv]

/-- An observation event contributes its observed value. -/
@[simp]
theorem containsTrueCheck_cons_check (k : Nat) (b : Bool) (l : List Ev) :
    containsTrueCheck (Ev.checkCancel k b :: l) = (b || containsTrueCheck l) := by
  simp [containsTrueCheck, Ev.isTrueCheck]

/-- A cache lookup is not an observation. -/
@[simp]
theorem containsTrueCheck_cons_cacheGet (k : String) (l : List Ev) :
    containsTrueCheck (Ev.callCacheGet k :: l) = containsTrueCheck l := by
  simp [containsTrueCheck, Ev.isTrueCheck]

/-- A cache store is not an observation. -/
@[simp]
theorem containsTrueCheck_cons_cacheStore (k : String) (l : List Ev) :
    containsTrueCheck (Ev.callCacheStore k :: l) = containsTrueCheck l := by
  simp [containsTrueCheck, Ev.isTrueCheck]

/-- A download call is not an observation. -/
@[simp]
theorem containsTrueCheck_cons_callDownload (l : List Ev) :
    containsTrueCheck (Ev.callDownload :: l) = containsTrueCheck l := by
  simp [containsTrueCheck, Ev.isTrueCheck]

/-- A convert call is not an observation. -/
@[simp]
theorem containsTrueCheck_cons_callConvert (l : List Ev) :
    containsTrueCheck (Ev.callConvert :: l) = containsTrueCheck l := by
  simp [containsTrueCheck, Ev.isTrueCheck]

/-- A transcribe call is not an observation. -/
@[simp]
theorem containsTrueCheck_cons_callTranscribe (l : List Ev) :
    containsTrueCheck (Ev.callTranscribe :: l) = containsTrueCheck l := by
  simp [containsTrueCheck, Ev.isTrueCheck]

/-- A translate call is not an observation. -/
@[simp]
theorem containsTrueCheck_cons_callTranslate (l : List Ev) :
    containsTrueCheck (Ev.callTranslate :: l) = containsTrueCheck l := by
  simp [containsTrueCheck, Ev.isTrueCheck]

/-- An export call is not an observation. -/
@[simp]
theorem containsTrueCheck_cons_callExport (l : List Ev) :
    containsTrueCheck (Ev.callExport :: l) = containsTrueCheck l := by
  simp [containsTrueCheck, Ev.isTrueCheck]

/-- An acquisition is not an observation. -/
@[simp]
theorem containsTrueCheck_cons_acquire (p : String) (l : List Ev) :
    containsTrueCheck (Ev.acquireTemp p :: l) = containsTrueCheck l := by
  simp [containsTrueCheck, Ev.isTrueCheck]

/-- The cancellation discipline of a try-block outcome: a completed run
observed the switch unset at every recorded site; an exception-carrying
run whose events saw the switch set implies the handler will see it set
too (site 6), and its events followed by any call-free tail pass the
cancellation scan. -/
def C3Out (c : Nat → Bool) : Except TryExc TryOk → Prop
  | .ok (_, evs, _) => containsTrueCheck evs = false
  | .error (_, _, evs) =>
      (containsTrueCheck evs = true → c 6 = true)
    ∧ (∀ rest, rest.all (fun ev => !ev.isStageCall) = true →
        cleanAfterCancel (evs ++ rest) = true)

/-- finishPart observes nothing. -/
theorem finishPart_c3 (cm : Option CMState) (c : Nat → Bool) (env : PipeEnv)
    {t : TaskProgress} {evs : List Ev} (res : TranscriptResult) (url model : String)
    (target_lang : Option String) (now : ℚ) (hin : containsTrueCheck evs = false) :
    C3Out c (finishPart cm env t evs res url model target_lang now) := by
  cases cm <;> simp [finishPart, C3Out, containsTrueCheck_append, hin]

/-- exportPart observes the switch only at its entry checkpoint. -/
theorem exportPart_c3 (cm : Option CMState) (c : Nat → Bool) (env : PipeEnv)
    {t : TaskProgress} {evs : List Ev} (res : TranscriptResult) (url model : String)
    (target_lang output_dir : Option String) (formats : List String) (now : ℚ)
    (hmono : ∀ i j, i ≤ j → c i = true → c j = true)
    (hin : containsTrueCheck evs = false) :
    C3Out c (exportPart cm c env t evs res url model target_lang output_dir formats now) := by
  unfold exportPart
  by_cases hreq : (!formats.isEmpty && optTruthy output_dir) = true
  · simp only [hreq, if_true]
    by_cases h5 : c 5 = true
    · simp only [h5, if_true, C3Out]
      constructor
      · intro _
        exact hmono 5 6 (by norm_num) h5
      · intro rest hrest
        rw [List.append_assoc, cleanAfterCancel_append_noTrue evs _ hin]
        simpa [h5] using hrest
    · simp only [h5, Bool.false_eq_true, if_false]
      cases hexp : env.exportOut with
      | error m =>
        have h5f : c 5 = false := by simpa using h5
        simp only [C3Out]
        constructor
        · intro hcontra
          simp [containsTrueCheck_append, hin, h5f] at hcontra
        · intro rest hrest
          rw [List.append_assoc, List.append_assoc,
            cleanAfterCancel_append_noTrue evs _ hin]
          simp only [h5f, List.cons_append, List.singleton_append,
            cleanAfterCancel_cons_reportEv, cleanAfterCancel_cons_checkFalse,
            cleanAfterCancel_cons_callExport]
          exact cleanAfterCancel_of_nonstage rest hrest
      | ok u =>
        apply finishPart_c3
        simp [containsTrueCheck_append, hin, h5]
  · simp only [hreq, Bool.false_eq_true, if_false]
    exact finishPart_c3 cm c env res url model target_lang now hin

/-- translatePart observes the switch only at its entry checkpoint. -/
theorem translatePart_c3 (cm : Option CMState) (c : Nat → Bool) (env : PipeEnv)
    {t : TaskProgress} {evs : List Ev} (res : TranscriptResult) (url model : String)
    (target_lang output_dir : Option String) (formats : List String) (now : ℚ)
    (hmono : ∀ i j, i ≤ j → c i = true → c j = true)
    (hin : containsTrueCheck evs = false) :
    C3Out c (translatePart cm c env t evs res url model target_lang output_dir formats now) := by
  unfold translatePart
  by_cases htl : optTruthy target_lang = true
  · simp only [htl, if_true]
    by_cases h4 : c 4 = true
    · simp only [h4, if_true, C3Out]
      constructor
      · intro _
        exact hmono 4 6 (by norm_num) h4
      · intro rest hrest
        rw [List.append_assoc, cleanAfterCancel_append_noTrue evs _ hin]
        simpa [h4] using hrest
    · simp only [h4, Bool.false_eq_true, if_false]
      cases htr : env.translateOut with
      | error m =>
        have h4f : c 4 = false := by simpa using h4
        simp only [C3Out]
        constructor
        · intro hcontra
          simp [containsTrueCheck_append, hin, h4f] at hcontra
        · intro rest hrest
          rw [List.append_assoc, List.append_assoc,
            cleanAfterCancel_append_noTrue evs _ hin]
          simp only [h4f, List.cons_append, List.singleton_append,
            cleanAfterCancel_cons_reportEv, cleanAfterCancel_cons_checkFalse,
            cleanAfterCancel_cons_callTranslate]
          exact cleanAfterCancel_of_nonstage rest hrest
      | ok tr =>
        apply exportPart_c3 _ _ _ _ _ _ _ _ _ _ hmono
        simp [containsTrueCheck_append, hin, h4]
  · simp only [htl, Bool.false_eq_true, if_false]
    exact exportPart_c3 cm c env res url model target_lang output_dir formats now hmono hin

/-- A call-free tail after a clean prefix passes the scan. -/
theorem clean_append_of_noTrue_nonstage (l rest : List Ev)
    (h1 : containsTrueCheck l = false)
    (h2 : rest.all (fun ev => !ev.isStageCall) = true) :
    cleanAfterCancel (l ++ rest) = true := by
  rw [cleanAfterCancel_append_noTrue _ _ h1]
  exact cleanAfterCancel_of_nonstage rest h2

/-- The try block observes the switch only at its stage-entry checkpoints
(sites 1, 2, 3 and those of the translate/export blocks). -/
theorem tryBody_c3 (cm : Option CMState) (c : Nat → Bool) (env : PipeEnv)
    (t0 : TaskProgress) (url model : String) (target_lang output_dir : Option String)
    (formats : List String) (now : ℚ)
    (hmono : ∀ i j, i ≤ j → c i = true → c j = true) :
    C3Out c (tryBody cm c env t0 url model target_lang output_dir formats now) := by
  unfold tryBody
  by_cases h1 : c 1 = true
  · simp only [h1, if_true, C3Out]
    refine ⟨fun _ => hmono 1 6 (by norm_num) h1, fun rest hrest => ?_⟩
    simp [h1, hrest]
  · have h1f : c 1 = false := by simpa using h1
    simp only [h1f, Bool.false_eq_true, if_false]
    rcases hD : runDownloadCbs { t0 with status := TaskStatus.downloading }
      env.downloadCbs with ⟨TD, DE⟩
    have hDE : containsTrueCheck DE = false := by
      apply containsTrueCheck_of_reports
      have := runDownloadCbs_reports { t0 with status := TaskStatus.downloading }
        env.downloadCbs
      rw [hD] at this
      exact this
    have hDEpass : ∀ l, cleanAfterCancel (DE ++ l) = cleanAfterCancel l :=
      fun l => cleanAfterCancel_append_noTrue DE l hDE
    cases hdl : env.download with
    | error m =>
      simp only [C3Out]
      refine ⟨fun hcontra => ?_, fun rest hrest => ?_⟩
      · simp [containsTrueCheck_append, h1f, hDE] at hcontra
      · refine clean_append_of_noTrue_nonstage _ rest ?_ hrest
        simp [containsTrueCheck_append, h1f, hDE]
    | ok audio_path =>
      simp only
      by_cases h2 : c 2 = true
      · simp only [h2, if_true, C3Out]
        refine ⟨fun _ => hmono 2 6 (by norm_num) h2, fun rest hrest => ?_⟩
        simp only [List.append_assoc, List.cons_append, List.nil_append,
          List.singleton_append, cleanAfterCancel_cons_reportEv,
          cleanAfterCancel_cons_checkFalse, cleanAfterCancel_cons_callDownload, h1f, h2,
          cleanAfterCancel_cons_acquire, cleanAfterCancel_cons_checkTrue, hDEpass]
        exact hrest
      · have h2f : c 2 = false := by simpa using h2
        simp only [h2f, Bool.false_eq_true, if_false]
        rcases hC : runConvertCbs { TD with temp_files := TD.temp_files ++ [audio_path], status := TaskStatus.converting } env.convertCbs with ⟨TC, CE⟩
        have hCE : containsTrueCheck CE = false := by
          apply containsTrueCheck_of_reports
          have := runConvertCbs_reports
            { TD with temp_files := TD.temp_files ++ [audio_path], status := TaskStatus.converting } env.convertCbs
          rw [hC] at this
          exact this
        have hCEpass : ∀ l, cleanAfterCancel (CE ++ l) = cleanAfterCancel l :=
          fun l => cleanAfterCancel_append_noTrue CE l hCE
        cases hcv : env.convert with
        | error m =>
          simp only [C3Out]
          refine ⟨fun hcontra => ?_, fun rest hrest => ?_⟩
          · simp [containsTrueCheck_append, h1f, h2f, hDE, hCE] at hcontra
          · refine clean_append_of_noTrue_nonstage _ rest ?_ hrest
            simp [containsTrueCheck_append, h1f, h2f, hDE, hCE]
        | ok wav_path =>
          simp only
          by_cases h3 : c 3 = true
          · simp only [h3, if_true, C3Out]
            refine ⟨fun _ => hmono 3 6 (by norm_num) h3, fun rest hrest => ?_⟩
            simp only [List.append_assoc, List.cons_append, List.nil_append,
              List.singleton_append, cleanAfterCancel_cons_reportEv,
              cleanAfterCancel_cons_checkFalse, cleanAfterCancel_cons_callDownload,
              cleanAfterCancel_cons_callConvert, h1f, h2f, h3,
              cleanAfterCancel_cons_acquire, cleanAfterCancel_cons_checkTrue, hDEpass,
              hCEpass]
            exact hrest
          · have h3f : c 3 = false := by simpa using h3
            simp only [h3f, Bool.false_eq_true, if_false]
            cases hts : env.transcribeOut with
            | error m =>
              simp only [C3Out]
              refine ⟨fun hcontra => ?_, fun rest hrest => ?_⟩
              · simp [containsTrueCheck_append, h1f, h2f, h3f, hDE, hCE] at hcontra
              · refine clean_append_of_noTrue_nonstage _ rest ?_ hrest
                simp [containsTrueCheck_append, h1f, h2f, h3f, hDE, hCE]
            | ok res =>
              apply translatePart_c3 _ _ _ _ _ _ _ _ _ _ hmono
              simp [containsTrueCheck_append, h1f, h2f, h3f, hDE, hCE]

/-- The guarded pipeline obeys the cooperative-cancellation discipline:
its trace passes the scan, and when any observation saw the switch set the
job terminates Cancelled. -/
theorem runGuarded_c3 (cm : Option CMState) (c : Nat → Bool) (env : PipeEnv)
    (t0 : TaskProgress) (evs0 : List Ev) (url model : String)
    (target_lang output_dir : Option String) (formats : List String) (now : ℚ)
    (hmono : ∀ i j, i ≤ j → c i = true → c j = true)
    (h0 : containsTrueCheck evs0 = false) :
    cleanAfterCancel (runGuarded cm c env t0 evs0 url model target_lang output_dir
      formats now).trace = true
  ∧ (containsTrueCheck (runGuarded cm c env t0 evs0 url model target_lang output_dir
      formats now).trace = true →
      (runGuarded cm c env t0 evs0 url model target_lang output_dir formats
        now).task.status = TaskStatus.cancelled) := by
  have hT := tryBody_c3 cm c env t0 url model target_lang output_dir formats now hmono
  unfold runGuarded
  cases htb : tryBody cm c env t0 url model target_lang output_dir formats now with
  | ok p =>
    obtain ⟨t, evs, cm1⟩ := p
    rw [htb] at hT
    simp only [C3Out] at hT
    constructor
    · apply cleanAfterCancel_of_noTrue
      simp [containsTrueCheck_append, h0, hT]
    · intro hcontra
      rw [containsTrueCheck_append, h0, hT] at hcontra
      simp at hcontra
  | error p =>
    obtain ⟨m, t, evs⟩ := p
    rw [htb] at hT
    simp only [C3Out] at hT
    constructor
    · simp only [List.append_assoc]
      rw [cleanAfterCancel_append_noTrue evs0 _ h0]
      apply hT.2
      simp [Ev.isStageCall, reportEv]
    · intro hcontra
      have hc6 : c 6 = true := by
        simp only [containsTrueCheck_append, h0, Bool.false_or, Bool.or_eq_true,
          containsTrueCheck_cons_check, containsTrueCheck_cons_reportEv] at hcontra
        rcases hcontra with h | h
        · exact hT.1 h
        · simpa using h
      simp only [TaskProgress.cleanup, hc6, if_true]
      split <;> rfl

/-- C3: with a monotone cancellation switch (threading.Event is set once and
never cleared during a batch), every _process_url run is cooperatively
cancelled: after the first stage-entry observation that saw the switch set,
no stage collaborator call appears in the trace (the stage already running
may still finish or fail), and whenever any observation saw the switch set
the job's terminal state is Cancelled, not Failed. -/
theorem C3_no_new_stage_after_cancel (cm : Option CMState) (c : Nat → Bool)
    (env : PipeEnv) (t0 : TaskProgress) (url model : String)
    (target_lang output_dir : Option String) (formats : List String) (now : ℚ)
    (hmono : ∀ i j, i ≤ j → c i = true → c j = true) :
    cleanAfterCancel
      (process_url cm c env t0 url model target_lang output_dir formats now).trace = true
  ∧ (containsTrueCheck
      (process_url cm c env t0 url model target_lang output_dir formats now).trace = true →
      (process_url cm c env t0 url model target_lang output_dir formats
        now).task.status = TaskStatus.cancelled) := by
  unfold process_url
  by_cases h0 : c 0 = true
  · simp only [h0, if_true]
    refine ⟨?_, fun _ => ?_⟩
    · simp [Ev.isStageCall, reportEv]
    · simp [TaskProgress.update_progress]
  · have h0f : c 0 = false := by simpa using h0
    simp only [h0f, Bool.false_eq_true, if_false]
    cases cm with
    | none =>
      exact runGuarded_c3 none c env t0 [Ev.checkCancel 0 false] url model target_lang
        output_dir formats now hmono (by simp)
    | some st =>
      simp only
      cases hg : (CacheManager.get st CacheType.transcription url
          (getParams model target_lang) now env.cacheGetExc env.cacheGetMetaExc).value with
      | some cached =>
        simp only [hg]
        by_cases hf : (!formats.isEmpty && optTruthy output_dir) = true
        · simp only [hf, if_true]
          cases hex : env.exportOut with
          | error m =>
            refine ⟨?_, fun hcontra => ?_⟩
            · apply cleanAfterCancel_of_noTrue
              simp [containsTrueCheck_append]
            · simp [containsTrueCheck_append] at hcontra
          | ok u =>
            refine ⟨?_, fun hcontra => ?_⟩
            · apply cleanAfterCancel_of_noTrue
              simp [containsTrueCheck_append]
            · simp [containsTrueCheck_append] at hcontra
        · simp only [hf, Bool.false_eq_true, if_false]
          refine ⟨?_, fun hcontra => ?_⟩
          · apply cleanAfterCancel_of_noTrue
            simp [containsTrueCheck_append]
          · simp [containsTrueCheck_append] at hcontra
      | none =>
        simp only [hg]
        apply runGuarded_c3 _ _ _ _ _ _ _ _ _ _ _ hmono
        simp

/-- Concrete instance: the switch set right after the initial checkpoint is a
monotone schedule, the run's trace passes the cancellation scan, and the job
ends Cancelled. -/
theorem C3_no_new_stage_after_cancel_witness :
    (∀ i j : Nat, i ≤ j → cAfter0 i = true → cAfter0 j = true)
  ∧ cleanAfterCancel (process_url none cAfter0 envOK (TaskProgress.init "u") "u"
      "small" none none [] 0).trace = true
  ∧ (process_url none cAfter0 envOK (TaskProgress.init "u") "u" "small" none none
      [] 0).task.status = TaskStatus.cancelled := by
  have hm : ∀ i j : Nat, i ≤ j → cAfter0 i = true → cAfter0 j = true := by
    intro i j hij hi
    simp only [cAfter0, decide_eq_true_eq] at hi ⊢
    omega
  have h := C3_no_new_stage_after_cancel none cAfter0 envOK (TaskProgress.init "u")
    "u" "small" none none [] 0 hm
  refine ⟨hm, h.1, h.2 ?_⟩
  simp [process_url, runGuarded, tryBody, cAfter0, TaskProgress.init,
    TaskProgress.update_progress, TaskProgress.cleanup, reportEv,
    containsTrueCheck_append]

/-- The active report values of an empty trace. -/
@[simp]
theorem activeReportVals_nil : activeReportVals [] = [] := rfl

/-- The active report values across a concatenation. -/
@[simp]
theorem activeReportVals_append (l1 l2 : List Ev) :
    activeReportVals (l1 ++ l2) = activeReportVals l1 ++ activeReportVals l2 := by
  simp [activeReportVals]

/-- A report contributes its progress value unless its status is terminal
Failed/Cancelled. -/
@[simp]
theorem activeReportVals_cons_report (s : TaskStatus) (p : ℚ) (l : List Ev) :
    activeReportVals (Ev.report s p :: l) =
      if s = TaskStatus.failed ∨ s = TaskStatus.cancelled then activeReportVals l
      else p :: activeReportVals l := by
  by_cases h : s = TaskStatus.failed ∨ s = TaskStatus.cancelled <;>
    simp [activeReportVals, h]

/-- A snapshot report contributes the snapshot's progress (reportEv form). -/
@[simp]
theorem activeReportVals_cons_reportEv (t : TaskProgress) (l : List Ev) :
    activeReportVals (reportEv t :: l) =
      if t.status = TaskStatus.failed ∨ t.status = TaskStatus.cancelled
      then activeReportVals l else t.progress :: activeReportVals l := by
  simp [reportEv]

/-- An observation contributes no report value. -/
@[simp]
theorem activeReportVals_cons_check (k : Nat) (b : Bool) (l : List Ev) :
    activeReportVals (Ev.checkCancel k b :: l) = activeReportVals l := by
  simp [activeReportVals]

/-- A cache lookup contributes no report value. -/
@[simp]
theorem activeReportVals_cons_cacheGet (k : String) (l : List Ev) :
    activeReportVals (Ev.callCacheGet k :: l) = activeReportVals l := by
  simp [activeReportVals]

/-- A cache store contributes no report value. -/
@[simp]
theorem activeReportVals_cons_cacheStore (k : String) (l : List Ev) :
    activeReportVals (Ev.callCacheStore k :: l) = activeReportVals l := by
  simp [activeReportVals]

/-- A download call contributes no report value. -/
@[simp]
theorem activeReportVals_cons_callDownload (l : List Ev) :
    activeReportVals (Ev.callDownload :: l) = activeReportVals l := by
  simp [activeReportVals]

/-- A convert call contributes no report value. -/
@[simp]
theorem activeReportVals_cons_callConvert (l : List Ev) :
    activeReportVals (Ev.callConvert :: l) = activeReportVals l := by
  simp [activeReportVals]

/-- A transcribe call contributes no report value. -/
@[simp]
theorem activeReportVals_cons_callTranscribe (l : List Ev) :
    activeReportVals (Ev.callTranscribe :: l) = activeReportVals l := by
  simp [activeReportVals]

/-- A translate call contributes no report value. -/
@[simp]
theorem activeReportVals_cons_callTranslate (l : List Ev) :
    activeReportVals (Ev.callTranslate :: l) = activeReportVals l := by
  simp [activeReportVals]

/-- An export call contributes no report value. -/
@[simp]
theorem activeReportVals_cons_callExport (l : List Ev) :
    activeReportVals (Ev.callExport :: l) = activeReportVals l := by
  simp [activeReportVals]

/-- A temp-file acquisition contributes no report value. -/
@[simp]
theorem activeReportVals_cons_acquire (p : String) (l : List Ev) :
    activeReportVals (Ev.acquireTemp p :: l) = activeReportVals l := by
  simp [activeReportVals]

/-- A monotone value chain within the closed interval from lo to hi:
pairwise non-decreasing, every value at least lo and at most hi. -/
def MonoVals (lo hi : ℚ) (l : List ℚ) : Prop :=
  l.Pairwise (· ≤ ·) ∧ ∀ v ∈ l, lo ≤ v ∧ v ≤ hi

/-- The empty chain is monotone for any bounds. -/
theorem monoVals_nil (lo hi : ℚ) : MonoVals lo hi [] := ⟨List.Pairwise.nil, by simp⟩

/-- A one-value chain is monotone within any enclosing interval. -/
theorem monoVals_singleton (lo hi p : ℚ) (h1 : lo ≤ p) (h2 : p ≤ hi) :
    MonoVals lo hi [p] := by
  refine ⟨?_, ?_⟩
  · exact List.pairwise_singleton _ _
  · intro v hv
    rcases List.mem_singleton.1 hv with rfl
    exact ⟨h1, h2⟩

/-- Two monotone chains meeting at a milestone concatenate to a monotone
chain over the combined interval. -/
theorem monoVals_append (lo m hi : ℚ) (l1 l2 : List ℚ)
    (h1 : MonoVals lo m l1) (h2 : MonoVals m hi l2)
    (hlm : lo ≤ m) (hmh : m ≤ hi) : MonoVals lo hi (l1 ++ l2) := by
  refine ⟨?_, ?_⟩
  · rw [List.pairwise_append]
    exact ⟨h1.1, h2.1, fun x hx y hy => le_trans (h1.2 x hx).2 (h2.2 y hy).1⟩
  · intro v hv
    rcases List.mem_append.1 hv with h | h
    · exact ⟨(h1.2 v h).1, le_trans (h1.2 v h).2 hmh⟩
    · exact ⟨le_trans hlm (h2.2 v h).1, (h2.2 v h).2⟩

/-- Prepending a value below a monotone chain keeps it monotone. -/
theorem monoVals_cons (lo hi p : ℚ) (l : List ℚ)
    (hp : lo ≤ p) (ph : p ≤ hi) (h : MonoVals p hi l) :
    MonoVals lo hi (p :: l) := by
  refine ⟨?_, ?_⟩
  · exact List.Pairwise.cons (fun v hv => (h.2 v hv).1) h.1
  · intro v hv
    rcases List.mem_cons.1 hv with rfl | hv
    · exact ⟨hp, ph⟩
    · exact ⟨le_trans hp (h.2 v hv).1, (h.2 v hv).2⟩

/-- Appending a value above a monotone chain extends it to the new upper
bound. -/
theorem monoVals_snoc (lo hi p : ℚ) (l : List ℚ)
    (h : MonoVals lo hi l) (hhp : hi ≤ p) (hlo : lo ≤ hi) :
    MonoVals lo p (l ++ [p]) :=
  monoVals_append lo hi p l [p] h (monoVals_singleton hi p p hhp (le_refl p)) hlo hhp

/-- Widening the interval preserves chain monotonicity. -/
theorem monoVals_widen (lo hi lo2 hi2 : ℚ) (l : List ℚ)
    (h : MonoVals lo hi l) (h1 : lo2 ≤ lo) (h2 : hi ≤ hi2) :
    MonoVals lo2 hi2 l :=
  ⟨h.1, fun v hv => ⟨le_trans h1 (h.2 v hv).1, le_trans (h.2 v hv).2 h2⟩⟩

/-- Per-event progress/status discipline: a Completed report carries
progress exactly 1, and a progress-1 report can only belong to the
Completed or Exporting stage (or a terminal Failed/Cancelled snapshot). -/
def evOK : Ev → Prop
  | .report s p =>
      (s = TaskStatus.completed → p = 1)
    ∧ (p = 1 → s = TaskStatus.completed ∨ s = TaskStatus.exporting
        ∨ s = TaskStatus.failed ∨ s = TaskStatus.cancelled)
  | _ => True

/-- Every event of the trace obeys the per-event discipline. -/
def ValsOK (evs : List Ev) : Prop := ∀ ev ∈ evs, evOK ev

/-- The empty trace obeys the discipline. -/
theorem valsOK_nil : ValsOK [] := by intro ev hev; cases hev

/-- The discipline is preserved by concatenation. -/
theorem valsOK_append {l1 l2 : List Ev} (h1 : ValsOK l1) (h2 : ValsOK l2) :
    ValsOK (l1 ++ l2) := by
  intro ev hev
  rcases List.mem_append.1 hev with h | h
  exacts [h1 _ h, h2 _ h]

/-- The discipline is preserved by prepending a compliant event. -/
theorem valsOK_cons {ev : Ev} {l : List Ev} (h : evOK ev) (hl : ValsOK l) :
    ValsOK (ev :: l) := by
  intro e he
  rcases List.mem_cons.1 he with rfl | he
  exacts [h, hl _ he]

/-- A report of a non-Completed stage with progress other than 1 is
compliant. -/
theorem evOK_report_lt (s : TaskStatus) (p : ℚ)
    (hs : s ≠ TaskStatus.completed) (hp : p ≠ 1) : evOK (Ev.report s p) :=
  ⟨fun h => absurd h hs, fun h => absurd h hp⟩

/-- A Completed report at progress 1 is compliant. -/
theorem evOK_completed (p : ℚ) (hp : p = 1) :
    evOK (Ev.report TaskStatus.completed p) :=
  ⟨fun _ => hp, fun _ => Or.inl rfl⟩

/-- An Exporting report is compliant at any progress. -/
theorem evOK_exporting (p : ℚ) : evOK (Ev.report TaskStatus.exporting p) :=
  ⟨fun h => TaskStatus.noConfusion h, fun _ => Or.inr (Or.inl rfl)⟩

/-- The terminal report of the except handler is compliant. -/
theorem evOK_terminal (b : Bool) (p : ℚ) :
    evOK (Ev.report (if b then TaskStatus.cancelled else TaskStatus.failed) p) := by
  cases b
  · exact ⟨fun h => TaskStatus.noConfusion h, fun _ => Or.inr (Or.inr (Or.inl rfl))⟩
  · exact ⟨fun h => TaskStatus.noConfusion h, fun _ => Or.inr (Or.inr (Or.inr rfl))⟩

/-- Progress accounting of the download callback run: during Downloading,
with sorted callback fractions in the unit interval each invocation
reports fraction times the 20-percent stage weight, so the reported values
form a monotone chain between the incoming progress and the final
progress, which stays within the Downloading band, and every report keeps
the Downloading status (hence none claims completion or progress 1). -/
theorem runDownloadCbs_c4 (cbs : List ℚ) (t : TaskProgress)
    (hst : t.status = TaskStatus.downloading)
    (hsort : cbs.Pairwise (· ≤ ·))
    (h01 : ∀ f ∈ cbs, 0 ≤ f ∧ f ≤ 1)
    (hlow : ∀ f ∈ cbs, t.progress ≤ f * (2/10))
    (hp0 : 0 ≤ t.progress) (hp2 : t.progress ≤ 2/10) :
    (runDownloadCbs t cbs).1.status = TaskStatus.downloading
  ∧ t.progress ≤ (runDownloadCbs t cbs).1.progress
  ∧ (runDownloadCbs t cbs).1.progress ≤ 2/10
  ∧ MonoVals t.progress (runDownloadCbs t cbs).1.progress
      (activeReportVals (runDownloadCbs t cbs).2)
  ∧ ValsOK (runDownloadCbs t cbs).2 := by
  induction cbs generalizing t with
  | nil =>
    simp only [runDownloadCbs, activeReportVals_nil]
    exact ⟨hst, le_refl _, hp2, monoVals_nil _ _, valsOK_nil⟩
  | cons f rest ih =>
    have hf01 := h01 f (List.mem_cons_self f rest)
    have ht1 : ({ t with download_progress := f } : TaskProgress).update_progress
        = { t with download_progress := f, progress := f * (2/10) } := by
      simp [TaskProgress.update_progress, hst]
    have hrec := ih { t with download_progress := f, progress := f * (2/10) }
      (by simp [hst])
      (List.pairwise_cons.1 hsort).2
      (fun g hg => h01 g (List.mem_cons_of_mem f hg))
      (by
        intro g hg
        have hfg := (List.pairwise_cons.1 hsort).1 g hg
        simp only
        nlinarith)
      (by simp only; nlinarith [hf01.1])
      (by simp only; nlinarith [hf01.2])
    simp only [runDownloadCbs, ht1]
    rcases hR : runDownloadCbs { t with download_progress := f, progress := f * (2/10) }
      rest with ⟨t2, evs⟩
    rw [hR] at hrec
    obtain ⟨h1s, h1ge, h1le, h1m, h1v⟩ := hrec
    simp only at h1s h1ge h1le h1m h1v
    refine ⟨h1s, le_trans (hlow f (List.mem_cons_self f rest)) h1ge, h1le, ?_, ?_⟩
    · rw [activeReportVals_cons_reportEv, if_neg (by simp [hst])]
      exact monoVals_cons _ _ _ _ (hlow f (List.mem_cons_self f rest)) h1ge h1m
    · refine valsOK_cons ?_ h1v
      have hne : f * (2/10) ≠ 1 := by
        intro h
        nlinarith [hf01.2]
      exact evOK_report_lt _ _ (by simp [hst]) hne

/-- Progress accounting of the conversion callback run, analogous to the
download run over the 20-to-30-percent Converting band. -/
theorem runConvertCbs_c4 (cbs : List ℚ) (t : TaskProgress)
    (hst : t.status = TaskStatus.converting)
    (hsort : cbs.Pairwise (· ≤ ·))
    (h01 : ∀ f ∈ cbs, 0 ≤ f ∧ f ≤ 1)
    (hlow : ∀ f ∈ cbs, t.progress ≤ 2/10 + f * (1/10))
    (hp0 : 0 ≤ t.progress) (hp3 : t.progress ≤ 3/10) :
    (runConvertCbs t cbs).1.status = TaskStatus.converting
  ∧ t.progress ≤ (runConvertCbs t cbs).1.progress
  ∧ (runConvertCbs t cbs).1.progress ≤ 3/10
  ∧ MonoVals t.progress (runConvertCbs t cbs).1.progress
      (activeReportVals (runConvertCbs t cbs).2)
  ∧ ValsOK (runConvertCbs t cbs).2 := by
  induction cbs generalizing t with
  | nil =>
    simp only [runConvertCbs, activeReportVals_nil]
    exact ⟨hst, le_refl _, hp3, monoVals_nil _ _, valsOK_nil⟩
  | cons f rest ih =>
    have hf01 := h01 f (List.mem_cons_self f rest)
    have ht1 : ({ t with conversion_progress := f } : TaskProgress).update_progress
        = { t with conversion_progress := f, progress := 2/10 + f * (1/10) } := by
      simp [TaskProgress.update_progress, hst]
    have hrec := ih { t with conversion_progress := f, progress := 2/10 + f * (1/10) }
      (by simp [hst])
      (List.pairwise_cons.1 hsort).2
      (fun g hg => h01 g (List.mem_cons_of_mem f hg))
      (by
        intro g hg
        have hfg := (List.pairwise_cons.1 hsort).1 g hg
        simp only
        nlinarith)
      (by simp only; nlinarith [hf01.1])
      (by simp only; nlinarith [hf01.2])
    simp only [runConvertCbs, ht1]
    rcases hR : runConvertCbs { t with conversion_progress := f, progress := 2/10 + f * (1/10) }
      rest with ⟨t2, evs⟩
    rw [hR] at hrec
    obtain ⟨h1s, h1ge, h1le, h1m, h1v⟩ := hrec
    simp only at h1s h1ge h1le h1m h1v
    refine ⟨h1s, le_trans (hlow f (List.mem_cons_self f rest)) h1ge, h1le, ?_, ?_⟩
    · rw [activeReportVals_cons_reportEv, if_neg (by simp [hst])]
      exact monoVals_cons _ _ _ _ (hlow f (List.mem_cons_self f rest)) h1ge h1m
    · refine valsOK_cons ?_ h1v
      have hne : 2/10 + f * (1/10) ≠ 1 := by
        intro h
        nlinarith [hf01.2]
      exact evOK_report_lt _ _ (by simp [hst]) hne

/-- The progress discipline of a try-block outcome: the active report
values form a monotone chain in the unit interval, every report obeys the
per-event discipline, and a completed outcome ends with progress exactly 1
and status Completed. -/
def C4Out : Except TryExc TryOk → Prop
  | .ok (t, evs, _) =>
      MonoVals 0 1 (activeReportVals evs) ∧ ValsOK evs
    ∧ t.progress = 1 ∧ t.status = TaskStatus.completed
  | .error (_, _, evs) => MonoVals 0 1 (activeReportVals evs) ∧ ValsOK evs

/-- The finish part completes the discipline: it reports Completed at
progress exactly 1, above every earlier active report value. -/
theorem finishPart_c4 (cm : Option CMState) (env : PipeEnv) (t : TaskProgress)
    (evs : List Ev) (res : TranscriptResult) (url model : String)
    (target_lang : Option String) (now : ℚ)
    (hm : MonoVals 0 t.progress (activeReportVals evs)) (hv : ValsOK evs)
    (hp0 : 0 ≤ t.progress) (hp1 : t.progress ≤ 1) :
    C4Out (finishPart cm env t evs res url model target_lang now) := by
  cases cm with
  | none =>
    have hfp : finishPart none env t evs res url model target_lang now = Except.ok ({ t with status := TaskStatus.completed, progress := 1, result := some res }, evs ++ [reportEv { t with status := TaskStatus.completed, progress := 1, result := some res }], none) := rfl
    rw [hfp]
    simp only [C4Out]
    refine ⟨?_, ?_, by trivial, by trivial⟩
    · rw [activeReportVals_append, activeReportVals_cons_reportEv,
        if_neg (by simp), activeReportVals_nil]
      exact monoVals_snoc 0 t.progress 1 _ hm hp1 hp0
    · exact valsOK_append hv (valsOK_cons (evOK_completed 1 rfl) valsOK_nil)
  | some st =>
    have hfp : finishPart (some st) env t evs res url model target_lang now = Except.ok ({ t with status := TaskStatus.completed, progress := 1, result := some res }, (evs ++ [Ev.callCacheStore (get_cache_key url (storeParams model target_lang))]) ++ [reportEv { t with status := TaskStatus.completed, progress := 1, result := some res }], some (CacheManager.store st CacheType.transcription url res (storeParams model target_lang) none now env.cacheStoreExc env.cacheStoreMetaExc env.cacheSetOk).state) := rfl
    rw [hfp]
    simp only [C4Out]
    refine ⟨?_, ?_, by trivial, by trivial⟩
    · rw [activeReportVals_append, activeReportVals_append,
        activeReportVals_cons_cacheStore, activeReportVals_nil, List.append_nil,
        activeReportVals_cons_reportEv, if_neg (by simp), activeReportVals_nil]
      exact monoVals_snoc 0 t.progress 1 _ hm hp1 hp0
    · exact valsOK_append (valsOK_append hv (valsOK_cons trivial valsOK_nil))
        (valsOK_cons (evOK_completed 1 rfl) valsOK_nil)

/-- The export block obeys the discipline: it enters Exporting at the
90-percent boundary, may legitimately report Exporting at progress 1 after
the export collaborator returns, and hands a progress-1 task to the finish
part. -/
theorem exportPart_c4 (cm : Option CMState) (c : Nat → Bool) (env : PipeEnv)
    (t : TaskProgress) (evs : List Ev) (res : TranscriptResult) (url model : String)
    (target_lang output_dir : Option String) (formats : List String) (now : ℚ)
    (hm : MonoVals 0 t.progress (activeReportVals evs)) (hv : ValsOK evs)
    (hp0 : 0 ≤ t.progress) (hp9 : t.progress ≤ 9/10) :
    C4Out (exportPart cm c env t evs res url model target_lang output_dir formats now) := by
  unfold exportPart
  by_cases hf : (!formats.isEmpty && optTruthy output_dir) = true
  · simp only [hf, if_true]
    have ht1 : ({ t with status := TaskStatus.exporting, export_progress := 0 } : TaskProgress).update_progress = { t with status := TaskStatus.exporting, export_progress := 0, progress := 9/10 } := by
      norm_num [TaskProgress.update_progress]
    rw [ht1]
    have hm1 : ∀ b : Bool, MonoVals 0 (9/10) (activeReportVals (evs ++ [reportEv { t with status := TaskStatus.exporting, export_progress := 0, progress := 9/10 }, Ev.checkCancel 5 b])) := by
      intro b
      rw [activeReportVals_append, activeReportVals_cons_reportEv,
        if_neg (by simp), activeReportVals_cons_check, activeReportVals_nil]
      exact monoVals_snoc 0 t.progress (9/10) _ hm hp9 hp0
    have hv1 : ∀ b : Bool, ValsOK (evs ++ [reportEv { t with status := TaskStatus.exporting, export_progress := 0, progress := 9/10 }, Ev.checkCancel 5 b]) :=
      fun b => valsOK_append hv (valsOK_cons (evOK_exporting _) (valsOK_cons trivial valsOK_nil))
    by_cases h5 : c 5 = true
    · simp only [h5, if_true, C4Out]
      exact ⟨monoVals_widen 0 (9/10) 0 1 _ (hm1 true) (le_refl 0) (by norm_num), hv1 true⟩
    · have h5f : c 5 = false := by simpa using h5
      simp only [h5f, Bool.false_eq_true, if_false]
      cases hex : env.exportOut with
      | error m =>
        simp only [C4Out]
        constructor
        · rw [activeReportVals_append, activeReportVals_cons_callExport,
            activeReportVals_nil, List.append_nil]
          exact monoVals_widen 0 (9/10) 0 1 _ (hm1 false) (le_refl 0) (by norm_num)
        · exact valsOK_append (hv1 false) (valsOK_cons trivial valsOK_nil)
      | ok u =>
        have ht2 : ({ { t with status := TaskStatus.exporting, export_progress := 0, progress := 9/10 } with export_progress := 1 } : TaskProgress).update_progress = { t with status := TaskStatus.exporting, export_progress := 1, progress := 1 } := by
          norm_num [TaskProgress.update_progress]
        simp only [ht2]
        apply finishPart_c4
        · rw [activeReportVals_append, activeReportVals_append,
            activeReportVals_cons_callExport, activeReportVals_nil, List.append_nil,
            activeReportVals_cons_reportEv, if_neg (by simp), activeReportVals_nil]
          exact monoVals_snoc 0 (9/10) 1 _ (hm1 false) (by norm_num) (by norm_num)
        · exact valsOK_append (valsOK_append (hv1 false) (valsOK_cons trivial valsOK_nil))
            (valsOK_cons (evOK_exporting _) valsOK_nil)
        · norm_num
        · norm_num
  · simp only [hf, Bool.false_eq_true, if_false]
    exact finishPart_c4 cm env t evs res url model target_lang now hm hv hp0
      (le_trans hp9 (by norm_num))

/-- The translate block obeys the discipline: it enters Translating at the
70-percent boundary and leaves at 90 percent. -/
theorem translatePart_c4 (cm : Option CMState) (c : Nat → Bool) (env : PipeEnv)
    (t : TaskProgress) (evs : List Ev) (res : TranscriptResult) (url model : String)
    (target_lang output_dir : Option String) (formats : List String) (now : ℚ)
    (hm : MonoVals 0 t.progress (activeReportVals evs)) (hv : ValsOK evs)
    (hp0 : 0 ≤ t.progress) (hp7 : t.progress ≤ 7/10) :
    C4Out (translatePart cm c env t evs res url model target_lang output_dir
      formats now) := by
  unfold translatePart
  by_cases htl : optTruthy target_lang = true
  · simp only [htl, if_true]
    have ht1 : ({ t with status := TaskStatus.translating, translation_progress := 0 } : TaskProgress).update_progress = { t with status := TaskStatus.translating, translation_progress := 0, progress := 7/10 } := by
      norm_num [TaskProgress.update_progress]
    rw [ht1]
    have hm1 : ∀ b : Bool, MonoVals 0 (7/10) (activeReportVals (evs ++ [reportEv { t with status := TaskStatus.translating, translation_progress := 0, progress := 7/10 }, Ev.checkCancel 4 b])) := by
      intro b
      rw [activeReportVals_append, activeReportVals_cons_reportEv,
        if_neg (by simp), activeReportVals_cons_check, activeReportVals_nil]
      exact monoVals_snoc 0 t.progress (7/10) _ hm hp7 hp0
    have hv1 : ∀ b : Bool, ValsOK (evs ++ [reportEv { t with status := TaskStatus.translating, translation_progress := 0, progress := 7/10 }, Ev.checkCancel 4 b]) := by
      intro b
      refine valsOK_append hv (valsOK_cons ?_ (valsOK_cons trivial valsOK_nil))
      exact evOK_report_lt _ _ (by simp) (by norm_num)
    by_cases h4 : c 4 = true
    · simp only [h4, if_true, C4Out]
      exact ⟨monoVals_widen 0 (7/10) 0 1 _ (hm1 true) (le_refl 0) (by norm_num), hv1 true⟩
    · have h4f : c 4 = false := by simpa using h4
      simp only [h4f, Bool.false_eq_true, if_false]
      cases htr : env.translateOut with
      | error m =>
        simp only [C4Out]
        constructor
        · rw [activeReportVals_append, activeReportVals_cons_callTranslate,
            activeReportVals_nil, List.append_nil]
          exact monoVals_widen 0 (7/10) 0 1 _ (hm1 false) (le_refl 0) (by norm_num)
        · exact valsOK_append (hv1 false) (valsOK_cons trivial valsOK_nil)
      | ok tr =>
        have ht2 : ({ { t with status := TaskStatus.translating, translation_progress := 0, progress := 7/10 } with translation_progress := 1 } : TaskProgress).update_progress = { t with status := TaskStatus.translating, translation_progress := 1, progress := 9/10 } := by
          norm_num [TaskProgress.update_progress]
        simp only [ht2]
        apply exportPart_c4
        · rw [activeReportVals_append, activeReportVals_append,
            activeReportVals_cons_callTranslate, activeReportVals_nil, List.append_nil,
            activeReportVals_cons_reportEv, if_neg (by simp), activeReportVals_nil]
          exact monoVals_snoc 0 (7/10) (9/10) _ (hm1 false) (by norm_num) (by norm_num)
        · refine valsOK_append (valsOK_append (hv1 false) (valsOK_cons trivial valsOK_nil))
            (valsOK_cons ?_ valsOK_nil)
          exact evOK_report_lt _ _ (by simp) (by norm_num)
        · norm_num
        · norm_num
  · simp only [htl, Bool.false_eq_true, if_false]
    exact exportPart_c4 cm c env t evs res url model target_lang output_dir formats
      now hm hv hp0 (le_trans hp7 (by norm_num))

/-- The try block obeys the progress discipline when started on a fresh
task (progress 0) under well-behaved stage callbacks: sorted fractions in
the unit interval. -/
theorem tryBody_c4 (cm : Option CMState) (c : Nat → Bool) (env : PipeEnv)
    (t0 : TaskProgress) (url model : String) (target_lang output_dir : Option String)
    (formats : List String) (now : ℚ)
    (ht0 : t0.progress = 0)
    (hdls : env.downloadCbs.Pairwise (· ≤ ·))
    (hdl01 : ∀ f ∈ env.downloadCbs, 0 ≤ f ∧ f ≤ 1)
    (hcvs : env.convertCbs.Pairwise (· ≤ ·))
    (hcv01 : ∀ f ∈ env.convertCbs, 0 ≤ f ∧ f ≤ 1) :
    C4Out (tryBody cm c env t0 url model target_lang output_dir formats now) := by
  have hp1 : ({ t0 with status := TaskStatus.downloading } : TaskProgress).progress
      = 0 := ht0
  unfold tryBody
  by_cases h1 : c 1 = true
  · simp only [h1, if_true, C4Out]
    constructor
    · simp [ht0]
      exact monoVals_singleton 0 1 0 (le_refl 0) (by norm_num)
    · exact valsOK_cons (evOK_report_lt _ _ (by simp) (by simp [ht0]))
        (valsOK_cons trivial valsOK_nil)
  · have h1f : c 1 = false := by simpa using h1
    simp only [h1f, Bool.false_eq_true, if_false]
    rcases hD : runDownloadCbs { t0 with status := TaskStatus.downloading }
      env.downloadCbs with ⟨t2, DE⟩
    have hDrec := runDownloadCbs_c4 env.downloadCbs
      { t0 with status := TaskStatus.downloading } rfl hdls hdl01
      (by intro f hf; rw [hp1]; nlinarith [(hdl01 f hf).1])
      (by norm_num [ht0]) (by norm_num [ht0])
    rw [hD] at hDrec
    obtain ⟨hDs, hDge, hDle, hDm, hDv⟩ := hDrec
    simp only at hDs hDge hDle hDm hDv
    rw [ht0] at hDge hDm
    have hD1 : t2.progress ≤ 1 := le_trans hDle (by norm_num)
    have hvE1 : ValsOK [reportEv { t0 with status := TaskStatus.downloading },
        Ev.checkCancel 1 false] :=
      valsOK_cons (evOK_report_lt _ _ (by simp) (by simp [ht0]))
        (valsOK_cons trivial valsOK_nil)
    cases hdl : env.download with
    | error m =>
      simp only [C4Out]
      constructor
      · simp [ht0]
        exact monoVals_cons 0 1 0 _ (le_refl 0) (by norm_num)
          (monoVals_widen 0 t2.progress 0 1 _ hDm (le_refl 0) hD1)
      · exact valsOK_append (valsOK_append hvE1 (valsOK_cons trivial valsOK_nil)) hDv
    | ok audio_path =>
      simp only
      have hvRep2 : evOK (reportEv { t2 with temp_files := t2.temp_files ++ [audio_path], status := TaskStatus.converting }) := by
        refine evOK_report_lt _ _ (by simp) ?_
        intro hc
        have hc2 : t2.progress = 1 := hc
        rw [hc2] at hDle
        norm_num at hDle
      by_cases h2 : c 2 = true
      · simp only [h2, if_true, C4Out]
        constructor
        · simp [ht0]
          refine monoVals_cons 0 1 0 _ (le_refl 0) (by norm_num) ?_
          refine monoVals_widen 0 t2.progress 0 1 _ ?_ (le_refl 0) hD1
          exact monoVals_append 0 t2.progress t2.progress _ _ hDm
            (monoVals_singleton t2.progress t2.progress t2.progress (le_refl _) (le_refl _))
            hDge (le_refl _)
        · exact valsOK_append
            (valsOK_append (valsOK_append hvE1 (valsOK_cons trivial valsOK_nil)) hDv)
            (valsOK_cons trivial (valsOK_cons hvRep2 (valsOK_cons trivial valsOK_nil)))
      · have h2f : c 2 = false := by simpa using h2
        simp only [h2f, Bool.false_eq_true, if_false]
        rcases hC : runConvertCbs { t2 with temp_files := t2.temp_files ++ [audio_path], status := TaskStatus.converting } env.convertCbs with ⟨TC, CE⟩
        have hCrec := runConvertCbs_c4 env.convertCbs
          { t2 with temp_files := t2.temp_files ++ [audio_path], status := TaskStatus.converting } rfl hcvs hcv01
          (by
            intro f hf
            show t2.progress ≤ 2/10 + f * (1/10)
            nlinarith [(hcv01 f hf).1, hDle])
          (by show (0:ℚ) ≤ t2.progress; exact hDge)
          (by show t2.progress ≤ 3/10; exact le_trans hDle (by norm_num))
        rw [hC] at hCrec
        obtain ⟨hCs, hCge, hCle, hCm, hCv⟩ := hCrec
        simp only at hCs hCge hCle hCm hCv
        have hCge2 : t2.progress ≤ TC.progress := hCge
        have hCm2 : MonoVals t2.progress TC.progress (activeReportVals CE) := hCm
        have hC1 : TC.progress ≤ 1 := le_trans hCle (by norm_num)
        have hvE3 : ValsOK ((([reportEv { t0 with status := TaskStatus.downloading }, Ev.checkCancel 1 false] ++ [Ev.callDownload]) ++ DE) ++ [Ev.acquireTemp audio_path, reportEv { t2 with temp_files := t2.temp_files ++ [audio_path], status := TaskStatus.converting }, Ev.checkCancel 2 false]) :=
          valsOK_append
            (valsOK_append (valsOK_append hvE1 (valsOK_cons trivial valsOK_nil)) hDv)
            (valsOK_cons trivial (valsOK_cons hvRep2 (valsOK_cons trivial valsOK_nil)))
        have hmE4 : MonoVals 0 TC.progress
            (0 :: (activeReportVals DE ++ t2.progress :: activeReportVals CE)) := by
          refine monoVals_cons 0 TC.progress 0 _ (le_refl 0)
            (le_trans hDge hCge2) ?_
          refine monoVals_append 0 t2.progress TC.progress _ _ hDm ?_ hDge
            hCge2
          exact monoVals_cons t2.progress TC.progress t2.progress _ (le_refl _)
            hCge2 hCm2
        cases hcv : env.convert with
        | error m =>
          simp only [C4Out]
          constructor
          · simp [ht0]
            exact monoVals_widen 0 TC.progress 0 1 _ hmE4 (le_refl 0) hC1
          · exact valsOK_append (valsOK_append hvE3 (valsOK_cons trivial valsOK_nil)) hCv
        | ok wav_path =>
          simp only
          have ht7 : ({ { TC with temp_files := TC.temp_files ++ [wav_path] } with status := TaskStatus.transcribing, transcription_progress := 0 } : TaskProgress).update_progress = { TC with temp_files := TC.temp_files ++ [wav_path], status := TaskStatus.transcribing, transcription_progress := 0, progress := 3/10 } := by
            norm_num [TaskProgress.update_progress]
          rw [ht7]
          have hvRep7 : evOK (reportEv { TC with temp_files := TC.temp_files ++ [wav_path], status := TaskStatus.transcribing, transcription_progress := 0, progress := 3/10 }) :=
            evOK_report_lt _ _ (by simp) (by norm_num)
          have hmE5 : MonoVals 0 (3/10)
              (0 :: (activeReportVals DE ++ t2.progress ::
                (activeReportVals CE ++ [3/10]))) := by
            refine monoVals_cons 0 (3/10) 0 _ (le_refl 0) (by norm_num) ?_
            refine monoVals_append 0 t2.progress (3/10) _ _ hDm ?_ hDge
              (le_trans hDle (by norm_num))
            refine monoVals_cons t2.progress (3/10) t2.progress _ (le_refl _)
              (le_trans hDle (by norm_num)) ?_
            exact monoVals_snoc t2.progress TC.progress (3/10) _ hCm2 hCle hCge2
          have hvE5 : ∀ b : Bool, ValsOK (((((([reportEv { t0 with status := TaskStatus.downloading }, Ev.checkCancel 1 false] ++ [Ev.callDownload]) ++ DE) ++ [Ev.acquireTemp audio_path, reportEv { t2 with temp_files := t2.temp_files ++ [audio_path], status := TaskStatus.converting }, Ev.checkCancel 2 false]) ++ [Ev.callConvert]) ++ CE) ++ [Ev.acquireTemp wav_path, reportEv { TC with temp_files := TC.temp_files ++ [wav_path], status := TaskStatus.transcribing, transcription_progress := 0, progress := 3/10 }, Ev.checkCancel 3 b]) := by
            intro b
            refine valsOK_append (valsOK_append (valsOK_append hvE3
              (valsOK_cons trivial valsOK_nil)) hCv) ?_
            exact valsOK_cons trivial (valsOK_cons hvRep7 (valsOK_cons trivial valsOK_nil))
          by_cases h3 : c 3 = true
          · simp only [h3, if_true, C4Out]
            refine ⟨?_, ?_⟩
            · simp [ht0]
              exact monoVals_widen 0 (3/10) 0 1 _ hmE5 (le_refl 0) (by norm_num)
            · exact hvE5 true
          · have h3f : c 3 = false := by simpa using h3
            simp only [h3f, Bool.false_eq_true, if_false]
            cases hts : env.transcribeOut with
            | error m =>
              simp only [C4Out]
              constructor
              · simp [ht0]
                exact monoVals_widen 0 (3/10) 0 1 _ hmE5 (le_refl 0) (by norm_num)
              · exact valsOK_append (hvE5 false) (valsOK_cons trivial valsOK_nil)
            | ok res =>
              apply translatePart_c4
              · show MonoVals 0 (3/10) _
                simp [ht0]
                exact hmE5
              · exact valsOK_append (hvE5 false) (valsOK_cons trivial valsOK_nil)
              · norm_num
              · norm_num

/-- The guarded pipeline obeys the progress discipline: active report
values are a monotone chain in the unit interval, reports follow the
per-event discipline, and a Completed final task has progress exactly 1. -/
theorem runGuarded_c4 (cm : Option CMState) (c : Nat → Bool) (env : PipeEnv)
    (t0 : TaskProgress) (evs0 : List Ev) (url model : String)
    (target_lang output_dir : Option String) (formats : List String) (now : ℚ)
    (ht0 : t0.progress = 0)
    (hdls : env.downloadCbs.Pairwise (· ≤ ·))
    (hdl01 : ∀ f ∈ env.downloadCbs, 0 ≤ f ∧ f ≤ 1)
    (hcvs : env.convertCbs.Pairwise (· ≤ ·))
    (hcv01 : ∀ f ∈ env.convertCbs, 0 ≤ f ∧ f ≤ 1)
    (h0vals : activeReportVals evs0 = []) (h0ok : ValsOK evs0) :
    MonoVals 0 1 (activeReportVals
      (runGuarded cm c env t0 evs0 url model target_lang output_dir formats now).trace)
  ∧ ValsOK (runGuarded cm c env t0 evs0 url model target_lang output_dir
      formats now).trace
  ∧ ((runGuarded cm c env t0 evs0 url model target_lang output_dir formats
        now).task.status = TaskStatus.completed →
      (runGuarded cm c env t0 evs0 url model target_lang output_dir formats
        now).task.progress = 1) := by
  have hT := tryBody_c4 cm c env t0 url model target_lang output_dir formats now
    ht0 hdls hdl01 hcvs hcv01
  unfold runGuarded
  cases htb : tryBody cm c env t0 url model target_lang output_dir formats now with
  | ok p =>
    obtain ⟨t, evs, cm1⟩ := p
    rw [htb] at hT
    simp only [C4Out] at hT
    refine ⟨?_, ?_, ?_⟩
    · rw [activeReportVals_append, h0vals, List.nil_append]
      exact hT.1
    · exact valsOK_append h0ok hT.2.1
    · intro _
      simp only [TaskProgress.cleanup]
      split
      · exact hT.2.2.1
      · exact hT.2.2.1
  | error p =>
    obtain ⟨m, t, evs⟩ := p
    rw [htb] at hT
    simp only [C4Out] at hT
    refine ⟨?_, ?_, ?_⟩
    · rw [activeReportVals_append, h0vals, List.nil_append,
        activeReportVals_append, activeReportVals_cons_check,
        activeReportVals_cons_reportEv]
      cases hc6 : c 6 with
      | true => simp only [hc6, if_true]; simp; exact hT.1
      | false => simp only [hc6, if_false]; simp; exact hT.1
    · refine valsOK_append h0ok (valsOK_append hT.2 (valsOK_cons trivial
        (valsOK_cons ?_ valsOK_nil)))
      exact evOK_terminal (c 6) _
    · intro hcontra
      exfalso
      simp only [TaskProgress.cleanup] at hcontra
      cases hc6 : c 6 with
      | true =>
        rw [hc6] at hcontra
        split at hcontra <;> simp at hcontra
      | false =>
        rw [hc6] at hcontra
        split at hcontra <;> simp at hcontra

/-- Progress discipline of a whole _process_url run, stated with the trace
predicates. -/
theorem process_url_c4 (cm : Option CMState) (c : Nat → Bool) (env : PipeEnv)
    (t0 : TaskProgress) (url model : String) (target_lang output_dir : Option String)
    (formats : List String) (now : ℚ)
    (ht0 : t0.progress = 0)
    (hdls : env.downloadCbs.Pairwise (· ≤ ·))
    (hdl01 : ∀ f ∈ env.downloadCbs, 0 ≤ f ∧ f ≤ 1)
    (hcvs : env.convertCbs.Pairwise (· ≤ ·))
    (hcv01 : ∀ f ∈ env.convertCbs, 0 ≤ f ∧ f ≤ 1) :
    MonoVals 0 1 (activeReportVals
      (process_url cm c env t0 url model target_lang output_dir formats now).trace)
  ∧ ValsOK (process_url cm c env t0 url model target_lang output_dir formats now).trace
  ∧ ((process_url cm c env t0 url model target_lang output_dir formats
        now).task.status = TaskStatus.completed →
      (process_url cm c env t0 url model target_lang output_dir formats
        now).task.progress = 1) := by
  unfold process_url
  by_cases h0 : c 0 = true
  · simp only [h0, if_true]
    have hup : ({ t0 with status := TaskStatus.cancelled } : TaskProgress).update_progress = { t0 with status := TaskStatus.cancelled } := by
      norm_num [TaskProgress.update_progress]
    rw [hup]
    refine ⟨?_, ?_, ?_⟩
    · rw [activeReportVals_cons_check, activeReportVals_cons_reportEv,
        if_pos (by simp), activeReportVals_nil]
      exact monoVals_nil 0 1
    · exact valsOK_cons trivial (valsOK_cons
        ⟨fun h => TaskStatus.noConfusion h, fun _ => Or.inr (Or.inr (Or.inr rfl))⟩
        valsOK_nil)
    · intro h
      exact absurd h (by simp)
  · have h0f : c 0 = false := by simpa using h0
    simp only [h0f, Bool.false_eq_true, if_false]
    cases cm with
    | none =>
      exact runGuarded_c4 none c env t0 [Ev.checkCancel 0 false] url model target_lang
        output_dir formats now ht0 hdls hdl01 hcvs hcv01 (by simp)
        (valsOK_cons trivial valsOK_nil)
    | some st =>
      simp only
      cases hg : (CacheManager.get st CacheType.transcription url
          (getParams model target_lang) now env.cacheGetExc env.cacheGetMetaExc).value with
      | some cached =>
        simp only [hg]
        by_cases hf : (!formats.isEmpty && optTruthy output_dir) = true
        · simp only [hf, if_true]
          cases hex : env.exportOut with
          | error m =>
            refine ⟨?_, ?_, ?_⟩
            · simp
              exact monoVals_singleton 0 1 1 (by norm_num) (le_refl 1)
            · exact valsOK_append (valsOK_append
                (valsOK_cons trivial (valsOK_cons trivial valsOK_nil))
                (valsOK_cons (evOK_completed 1 rfl) valsOK_nil))
                (valsOK_cons trivial valsOK_nil)
            · intro _
              trivial
          | ok u =>
            refine ⟨?_, ?_, ?_⟩
            · simp
              exact monoVals_singleton 0 1 1 (by norm_num) (le_refl 1)
            · exact valsOK_append (valsOK_append
                (valsOK_cons trivial (valsOK_cons trivial valsOK_nil))
                (valsOK_cons (evOK_completed 1 rfl) valsOK_nil))
                (valsOK_cons trivial valsOK_nil)
            · intro _
              trivial
        · simp only [hf, Bool.false_eq_true, if_false]
          refine ⟨?_, ?_, ?_⟩
          · simp
            exact monoVals_singleton 0 1 1 (by norm_num) (le_refl 1)
          · exact valsOK_append
              (valsOK_cons trivial (valsOK_cons trivial valsOK_nil))
              (valsOK_cons (evOK_completed 1 rfl) valsOK_nil)
          · intro _
            trivial
      | none =>
        simp only [hg]
        exact runGuarded_c4 _ c env t0
          [Ev.checkCancel 0 false,
            Ev.callCacheGet (get_cache_key url (getParams model target_lang))]
          url model target_lang output_dir formats now ht0 hdls hdl01 hcvs hcv01
          (by simp) (valsOK_cons trivial (valsOK_cons trivial valsOK_nil))

/-- C4 corrected: with a fresh task and well-behaved per-stage callback
fractions (each list sorted and inside the unit interval), the overall
progress values of the active (non-Failed/Cancelled) reports of a
_process_url run form a monotone non-decreasing chain within [0, 1]; every
Completed report carries progress exactly 1; but progress 1 does not imply
Completed: a progress-1 report may also belong to the Exporting stage (the
update after the export collaborator returns), which is the amendment the
counterexample forces.  The final task equally satisfies: status Completed
implies progress 1. -/
theorem C4_amended (cm : Option CMState) (c : Nat → Bool) (env : PipeEnv)
    (t0 : TaskProgress) (url model : String) (target_lang output_dir : Option String)
    (formats : List String) (now : ℚ)
    (ht0 : t0.progress = 0)
    (hdls : env.downloadCbs.Pairwise (· ≤ ·))
    (hdl01 : ∀ f ∈ env.downloadCbs, 0 ≤ f ∧ f ≤ 1)
    (hcvs : env.convertCbs.Pairwise (· ≤ ·))
    (hcv01 : ∀ f ∈ env.convertCbs, 0 ≤ f ∧ f ≤ 1) :
    MonoVals 0 1 (activeReportVals
      (process_url cm c env t0 url model target_lang output_dir formats now).trace)
  ∧ (∀ s p, Ev.report s p ∈
      (process_url cm c env t0 url model target_lang output_dir formats now).trace →
      (s = TaskStatus.completed → p = 1)
    ∧ (p = 1 → s = TaskStatus.completed ∨ s = TaskStatus.exporting
        ∨ s = TaskStatus.failed ∨ s = TaskStatus.cancelled))
  ∧ ((process_url cm c env t0 url model target_lang output_dir formats
        now).task.status = TaskStatus.completed →
      (process_url cm c env t0 url model target_lang output_dir formats
        now).task.progress = 1) := by
  have h := process_url_c4 cm c env t0 url model target_lang output_dir formats now
    ht0 hdls hdl01 hcvs hcv01
  exact ⟨h.1, fun s p hm => h.2.1 _ hm, h.2.2⟩

/-- A collaborator environment with non-trivial, sorted progress-callback
fraction lists for the download and convert stages. -/
def envC4 : PipeEnv := { envOK with downloadCbs := [1/2, 1], convertCbs := [0, 1] }

/-- Concrete instance: on a fresh task with sorted unit-interval callback
fractions, the full run (translation and export requested) satisfies the
amended progress discipline. -/
theorem C4_amended_witness :
    (TaskProgress.init "u").progress = 0
  ∧ (MonoVals 0 1 (activeReportVals (process_url none cNever envC4
      (TaskProgress.init "u") "u" "small" (some "fr") (some "o") ["srt"] 0).trace)
  ∧ (∀ s p, Ev.report s p ∈ (process_url none cNever envC4 (TaskProgress.init "u")
      "u" "small" (some "fr") (some "o") ["srt"] 0).trace →
      (s = TaskStatus.completed → p = 1)
    ∧ (p = 1 → s = TaskStatus.completed ∨ s = TaskStatus.exporting
        ∨ s = TaskStatus.failed ∨ s = TaskStatus.cancelled))
  ∧ ((process_url none cNever envC4 (TaskProgress.init "u") "u" "small" (some "fr")
      (some "o") ["srt"] 0).task.status = TaskStatus.completed →
      (process_url none cNever envC4 (TaskProgress.init "u") "u" "small" (some "fr")
      (some "o") ["srt"] 0).task.progress = 1)) := by
  refine ⟨rfl, ?_⟩
  exact C4_amended none cNever envC4 (TaskProgress.init "u") "u" "small" (some "fr")
    (some "o") ["srt"] 0 rfl
    (by norm_num [envC4, envOK, List.pairwise_cons])
    (by norm_num [envC4, envOK])
    (by norm_num [envC4, envOK, List.pairwise_cons])
    (by norm_num [envC4, envOK])

/-- When the export collaborator is the first to raise, the export block
re-raises its message. -/
theorem exportPart_c1 (cm : Option CMState) (env : PipeEnv) (t : TaskProgress)
    (evs : List Ev) (res : TranscriptResult) (url model : String)
    (target_lang output_dir : Option String) (formats : List String) (now : ℚ)
    (e : String) (he : exportStageError env output_dir formats = some e) :
    ∃ t1 evs1, exportPart cm cNever env t evs res url model target_lang output_dir
      formats now = .error (e, t1, evs1) := by
  unfold exportPart
  unfold exportStageError at he
  by_cases hf : (!formats.isEmpty && optTruthy output_dir) = true
  · rw [if_pos hf] at he
    simp only [hf, if_true, cNever, Bool.false_eq_true, if_false]
    cases hex : env.exportOut with
    | error m =>
      rw [hex] at he
      simp only at he
      obtain rfl : m = e := by simpa using he
      exact ⟨_, _, rfl⟩
    | ok u =>
      rw [hex] at he
      simp at he
  · rw [if_neg hf] at he
    simp at he

/-- When translate or export is the first collaborator to raise, the
translate block re-raises that message. -/
theorem translatePart_c1 (cm : Option CMState) (env : PipeEnv) (t : TaskProgress)
    (evs : List Ev) (res : TranscriptResult) (url model : String)
    (target_lang output_dir : Option String) (formats : List String) (now : ℚ)
    (e : String) (he : translateStageError env target_lang output_dir formats = some e) :
    ∃ t1 evs1, translatePart cm cNever env t evs res url model target_lang output_dir
      formats now = .error (e, t1, evs1) := by
  unfold translatePart
  unfold translateStageError at he
  by_cases htl : optTruthy target_lang = true
  · rw [if_pos htl] at he
    simp only [htl, if_true, cNever, Bool.false_eq_true, if_false]
    cases htr : env.translateOut with
    | error m =>
      rw [htr] at he
      simp only at he
      obtain rfl : m = e := by simpa using he
      exact ⟨_, _, rfl⟩
    | ok tr =>
      rw [htr] at he
      simp only at he
      exact exportPart_c1 cm env _ _ _ url model target_lang output_dir formats now e he
  · rw [if_neg htl] at he
    simp only [htl, Bool.false_eq_true, if_false]
    exact exportPart_c1 cm env _ _ _ url model target_lang output_dir formats now e he

/-- When some performed stage's collaborator raises first with message e,
the try block exits with exactly that exception. -/
theorem tryBody_c1 (cm : Option CMState) (env : PipeEnv) (t0 : TaskProgress)
    (url model : String) (target_lang output_dir : Option String)
    (formats : List String) (now : ℚ) (e : String)
    (he : firstStageError env target_lang output_dir formats = some e) :
    ∃ t evs, tryBody cm cNever env t0 url model target_lang output_dir formats now
      = .error (e, t, evs) := by
  unfold tryBody
  unfold firstStageError at he
  simp only [cNever, Bool.false_eq_true, if_false]
  rcases hD : runDownloadCbs { t0 with status := TaskStatus.downloading }
    env.downloadCbs with ⟨TD, DE⟩
  cases hdl : env.download with
  | error m =>
    rw [hdl] at he
    simp only at he
    obtain rfl : m = e := by simpa using he
    exact ⟨_, _, rfl⟩
  | ok audio_path =>
    rw [hdl] at he
    simp only at he
    simp only
    rcases hC : runConvertCbs { TD with temp_files := TD.temp_files ++ [audio_path], status := TaskStatus.converting } env.convertCbs with ⟨TC, CE⟩
    cases hcv : env.convert with
    | error m =>
      rw [hcv] at he
      simp only at he
      obtain rfl : m = e := by simpa using he
      exact ⟨_, _, rfl⟩
    | ok wav_path =>
      rw [hcv] at he
      simp only at he
      simp only
      cases hts : env.transcribeOut with
      | error m =>
        rw [hts] at he
        simp only at he
        obtain rfl : m = e := by simpa using he
        exact ⟨_, _, rfl⟩
      | ok res =>
        rw [hts] at he
        simp only at he
        exact translatePart_c1 cm env _ _ _ url model target_lang output_dir
          formats now e he

/-- The collaborator environment of the bug scenario: a cache-hit run whose
export collaborator raises. -/
def envExportFail : PipeEnv := { envOK with exportOut := .error "disk full" }

/-- C1 divergence: on the guarded path the claim holds: the first stage
collaborator exception converts that job (alone: each worker computes only
its own list entry) to Failed with the exception text as its error, the
method returns the failed dict, and once all tasks settle the batch status
is derived (Cancelled if the switch was set, else Failed when some task
failed, else Completed) with the completion callback fired exactly once
carrying the aggregate payload.  But on the cache-hit path the export
collaborator runs OUTSIDE the try/except (src/batch.py 236-237): its
exception escapes _process_url entirely, the job stays Completed with no
error recorded, contradicting the claim that any stage exception converts
the job to Failed. -/
theorem C1_code_divergence :
    (∀ (env : PipeEnv) (url model : String) (target_lang output_dir : Option String)
        (formats : List String) (now : ℚ) (e : String),
        firstStageError env target_lang output_dir formats = some e →
        (process_url none cNever env (TaskProgress.init url) url model target_lang
          output_dir formats now).task.status = TaskStatus.failed
      ∧ (process_url none cNever env (TaskProgress.init url) url model target_lang
          output_dir formats now).task.error = some e
      ∧ (process_url none cNever env (TaskProgress.init url) url model target_lang
          output_dir formats now).ret
          = .ok { status := "failed", error := some e })
  ∧ (∀ (c : Nat → Bool) (jobs : List (String × PipeEnv × Option CMState))
        (i j : Nat) (job2 : String × PipeEnv × Option CMState)
        (model : String) (target_lang output_dir : Option String)
        (formats : List String) (now : ℚ), i ≠ j →
        (runBatchJobs c (jobs.set i job2) model target_lang output_dir formats now)[j]?
          = (runBatchJobs c jobs model target_lang output_dir formats now)[j]?)
  ∧ (∀ (cancelSet : Bool) (tasks : List TaskProgress),
        (monitor_progress cancelSet tasks true).2 = [completionPayload cancelSet tasks]
      ∧ (monitor_progress cancelSet tasks false).2 = [])
  ∧ (∀ tasks, deriveBatchStatus true tasks = BatchStatus.cancelled)
  ∧ (∀ tasks, (∃ t ∈ tasks, t.status = TaskStatus.failed) →
        deriveBatchStatus false tasks = BatchStatus.failed)
  ∧ (∀ tasks, (∀ t ∈ tasks, t.status ≠ TaskStatus.failed) →
        deriveBatchStatus false tasks = BatchStatus.completed)
  ∧ (process_url (some c2State2) cNever envExportFail (TaskProgress.init "u") "u"
      "small" (some "fr") (some "o") ["srt"] 1).ret = .error "disk full"
  ∧ Ev.callExport ∈ (process_url (some c2State2) cNever envExportFail
      (TaskProgress.init "u") "u" "small" (some "fr") (some "o") ["srt"] 1).trace
  ∧ (process_url (some c2State2) cNever envExportFail (TaskProgress.init "u") "u"
      "small" (some "fr") (some "o") ["srt"] 1).task.status = TaskStatus.completed
  ∧ (process_url (some c2State2) cNever envExportFail (TaskProgress.init "u") "u"
      "small" (some "fr") (some "o") ["srt"] 1).task.error = none := by
  have hcache2 : c2State2.caches CacheType.transcription
      = backendSet [] (get_cache_key "u" (storeParams "small" (some "fr"))) c2ResultFr
          (some (0 + 100)) := by
    simp [c2State2, CacheManager.store, CacheManager.get, updStats, updCache, emptyCM,
      ite_self, backendGet]
  have hkeyfr : get_cache_key "u" (getParams "small" (some "fr"))
      = get_cache_key "u" (storeParams "small" (some "fr")) := by decide
  have hhit2 : (CacheManager.get c2State2 CacheType.transcription "u"
      (getParams "small" (some "fr")) 1 none none).value = some c2ResultFr := by
    simp only [CacheManager.get, hcache2, hkeyfr]
    rw [backendGet_set_self]
    norm_num
  refine ⟨?_, ?_, ?_, ?_, ?_, ?_, ?_, ?_, ?_, ?_⟩
  · intro env url model target_lang output_dir formats now e he
    obtain ⟨t, evs, htb⟩ := tryBody_c1 none env (TaskProgress.init url) url model
      target_lang output_dir formats now e he
    have hpu : process_url none cNever env (TaskProgress.init url) url model
        target_lang output_dir formats now
        = runGuarded none cNever env (TaskProgress.init url) [Ev.checkCancel 0 false]
          url model target_lang output_dir formats now := by
      simp [process_url, cNever]
    rw [hpu]
    unfold runGuarded
    rw [htb]
    simp only [cNever, Bool.false_eq_true, if_false, TaskProgress.cleanup]
    refine ⟨?_, ?_, ?_⟩
    · split <;> rfl
    · split <;> rfl
    · trivial
  · intro c jobs i j job2 model target_lang output_dir formats now hne
    simp only [runBatchJobs, List.getElem?_map]
    rw [List.getElem?_set_ne hne]
  · intro cancelSet tasks
    exact ⟨rfl, rfl⟩
  · intro tasks
    simp [deriveBatchStatus]
  · intro tasks ht
    obtain ⟨t, htm, hts⟩ := ht
    simp only [deriveBatchStatus, Bool.false_eq_true, if_false]
    rw [if_pos]
    simp only [List.any_eq_true]
    exact ⟨t, htm, by simp [hts]⟩
  · intro tasks ht
    simp only [deriveBatchStatus, Bool.false_eq_true, if_false]
    rw [if_neg]
    simp only [List.any_eq_true]
    rintro ⟨t, htm, hts⟩
    exact ht t htm (by simpa using hts)
  · simp only [process_url, cNever, envExportFail, envOK, Bool.false_eq_true, if_false,
      hhit2]
    norm_num [TaskProgress.init, optTruthy, reportEv,
      show (("o" : String) = "") ↔ False from by simp]
  · simp only [process_url, cNever, envExportFail, envOK, Bool.false_eq_true, if_false,
      hhit2]
    norm_num [TaskProgress.init, optTruthy, reportEv,
      show (("o" : String) = "") ↔ False from by simp]
  · simp only [process_url, cNever, envExportFail, envOK, Bool.false_eq_true, if_false,
      hhit2]
    norm_num [TaskProgress.init, optTruthy, reportEv,
      show (("o" : String) = "") ↔ False from by simp]
  · simp only [process_url, cNever, envExportFail, envOK, Bool.false_eq_true, if_false,
      hhit2]
    norm_num [TaskProgress.init, optTruthy, reportEv,
      show (("o" : String) = "") ↔ False from by simp]

/-- Concrete instance of the confirmed direction: a transcribe-stage
exception converts the job to Failed with that error text and the failed
return dict. -/
theorem C1_code_divergence_witness :
    firstStageError { envOK with transcribeOut := .error "boom" } none none []
      = some "boom"
  ∧ (process_url none cNever { envOK with transcribeOut := .error "boom" }
      (TaskProgress.init "u") "u" "small" none none [] 0).task.status
      = TaskStatus.failed
  ∧ (process_url none cNever { envOK with transcribeOut := .error "boom" }
      (TaskProgress.init "u") "u" "small" none none [] 0).task.error = some "boom"
  ∧ (process_url none cNever { envOK with transcribeOut := .error "boom" }
      (TaskProgress.init "u") "u" "small" none none [] 0).ret
      = .ok { status := "failed", error := some "boom" } := by
  have h := C1_code_divergence.1 { envOK with transcribeOut := .error "boom" }
    "u" "small" none none [] 0 "boom" rfl
  exact ⟨rfl, h.1, h.2.1, h.2.2⟩

end YTPro
